import Mathlib

/-!
Verification of the nested ledger-state transaction layer ("LedgerTxn")
of this repository against its specification.

The engine implementation (LedgerTxn.cpp) is not present in the tree; only
its test suite (src/ledger/LedgerStateTests.cpp) and one caller
(src/transactions/OperationFrame.cpp) are.  The definitions below are
therefore a shallow embedding modelled from the spec (sections 2-4 of
spec.md), with every behavioural choice that the spec leaves open pinned
by the tests in src/ledger/LedgerStateTests.cpp.
-/

namespace StellarLedger

/-- Account payload: id, balance, optional inflation destination
(`AccountEntry` fields used by the tests). -/
structure AccountData where
  accountID : Nat
  balance : Int
  inflationDest : Option Nat
  deriving DecidableEq, Repr

/-- Trust-line payload (key fields only). -/
structure TrustLineData where
  accountID : Nat
  asset : Nat
  tlBalance : Int
  deriving DecidableEq, Repr

/-- Offer payload: seller, offer id, asset pair, price as a fraction, amount
(`OfferEntry` fields used by the tests). -/
structure OfferData where
  sellerID : Nat
  offerID : Nat
  buying : Nat
  selling : Nat
  priceN : Int
  priceD : Int
  amount : Int
  deriving DecidableEq, Repr

/-- Data-item payload (key fields plus a value). -/
structure DataData where
  accountID : Nat
  dataName : Nat
  dataValue : Nat
  deriving DecidableEq, Repr

/-- Kind-tagged ledger-entry payload (spec 3, "Ledger Entry"). -/
inductive EntryData
  | account (a : AccountData)
  | trustLine (t : TrustLineData)
  | offer (o : OfferData)
  | dataItem (d : DataData)
  deriving DecidableEq, Repr

/-- A versioned ledger entry: payload plus last-modified sequence number. -/
structure LedgerEntry where
  lastModifiedLedgerSeq : Nat
  data : EntryData
  deriving DecidableEq, Repr

/-- Discriminated ledger key (spec 3, "Ledger Key"). -/
inductive LedgerKey
  | account (id : Nat)
  | trustLine (id : Nat) (asset : Nat)
  | offer (seller : Nat) (offerID : Nat)
  | dataItem (id : Nat) (name : Nat)
  deriving DecidableEq, Repr

/-- The key addressing a ledger entry (`LedgerEntryKey` in the tests). -/
def ledgerEntryKey (e : LedgerEntry) : LedgerKey :=
  match e.data with
  | .account a => .account a.accountID
  | .trustLine t => .trustLine t.accountID t.asset
  | .offer o => .offer o.sellerID o.offerID
  | .dataItem d => .dataItem d.accountID d.dataName

/-- The singleton ledger header (fields used by the sources). -/
structure LedgerHeader where
  ledgerSeq : Nat
  ledgerVersion : Nat
  deriving DecidableEq, Repr

/-! ## Association-list lookups -/

/-- First-match association-list lookup. -/
def alookup {κ β : Type} [DecidableEq κ] : List (κ × β) → κ → Option β
  | [], _ => none
  | (k', v) :: r, k => if k' = k then some v else alookup r k

/-- Injective encoding of a ledger key as (tag, field1, field2). -/
def keyEnc : LedgerKey → Nat × Nat × Nat
  | .account i => (0, i, 0)
  | .trustLine i a => (1, i, a)
  | .offer s oid => (2, s, oid)
  | .dataItem i n => (3, i, n)

/-- Lexicographic strict order on Nat triples. -/
def tripleLt (x y : Nat × Nat × Nat) : Bool :=
  x.1 < y.1 || (x.1 = y.1 && (x.2.1 < y.2.1 ||
    (x.2.1 = y.2.1 && x.2.2 < y.2.2)))

/-- Strict total order on ledger keys. -/
def keyLt (k k' : LedgerKey) : Bool := tripleLt (keyEnc k) (keyEnc k')

/-- Insert a key into a strictly `keyLt`-sorted list, skipping duplicates. -/
def sKeyInsert (k : LedgerKey) : List LedgerKey → List LedgerKey
  | [] => [k]
  | k' :: rest =>
    if keyLt k k' then k :: k' :: rest
    else if keyLt k' k then k' :: sKeyInsert k rest
    else k' :: rest

/-- Canonical sorted deduplicated form of a key list. -/
def sortKeys (l : List LedgerKey) : List LedgerKey := l.foldr sKeyInsert []

/-! ## Frames and the frame chain

Modelled from the spec: the LedgerTxn engine (LedgerTxn.cpp, LedgerTxnEntry.cpp,
LedgerTxnHeader.cpp) is not in the tree; spec sections 2-4 describe it.  A
`Frame` is one nested transaction level: a copy-on-write stage (newest record
first; a `none` record is a staged erasure), a seal flag, the frame's current
header, the set of outstanding (active) entry handles, and the optional active
header handle.  A `Chain` is the live frame chain (innermost first) over the
Root layer: durable storage plus the optional bounded entry cache
(`ENTRY_CACHE_SIZE`; a cached `none` records known absence). -/

/-- Error taxonomy of spec section 7. -/
inductive LtxError
  | InvalidState
  | DuplicateKey
  | KeyNotFound
  | AlreadyActive
  deriving DecidableEq, Repr

/-- One transaction frame (spec 4.1). -/
structure Frame where
  stage : List (LedgerKey × Option LedgerEntry)
  frameSealed : Bool
  header : LedgerHeader
  activeKeys : List (Nat × LedgerKey)
  headerActive : Option Nat
  nextId : Nat
  deriving DecidableEq, Repr

/-- A fresh frame bound to a parent whose current header is `h`. -/
def newFrame (h : LedgerHeader) : Frame :=
  { stage := [], frameSealed := false, header := h, activeKeys := [],
    headerActive := none, nextId := 0 }

/-- The live frame chain over the Root layer (spec 2, 4.2). -/
structure Chain where
  frames : List Frame
  storage : List (LedgerKey × LedgerEntry)
  cache : List (LedgerKey × Option LedgerEntry)
  cacheSize : Nat
  rootHeader : LedgerHeader
  deriving DecidableEq, Repr

/-- Root-layer read: entry cache first, then durable storage (spec 4.2). -/
def rootResolve (c : Chain) (k : LedgerKey) : Option LedgerEntry :=
  match alookup c.cache k with
  | some r => r
  | none => alookup c.storage k

/-- Resolve a key through a suffix of the frame chain down to the Root
(spec 2: reads miss downward through the parent chain). -/
def resolveFrom (c : Chain) : List Frame → LedgerKey → Option LedgerEntry
  | [], k => rootResolve c k
  | f :: rest, k =>
    match alookup f.stage k with
    | some r => r
    | none => resolveFrom c rest k

/-- The merged view from the innermost frame. -/
def resolve (c : Chain) (k : LedgerKey) : Option LedgerEntry :=
  resolveFrom c c.frames k

/-- The view the innermost frame's parent chain provides. -/
def parentResolve (c : Chain) (k : LedgerKey) : Option LedgerEntry :=
  resolveFrom c (c.frames.drop 1) k

/-- The header the innermost frame's parent currently holds. -/
def parentHeader (c : Chain) : LedgerHeader :=
  match c.frames.drop 1 with
  | p :: _ => p.header
  | [] => c.rootHeader

/-- The current header of the innermost live level (frame or Root). -/
def innerHeader (c : Chain) : LedgerHeader :=
  match c.frames with
  | f :: _ => f.header
  | [] => c.rootHeader

/-- Root-layer entry-cache consistency: a zero-capacity cache is empty and
every cached record agrees with durable storage (spec 4.2: cache state must
never cause a query to diverge from the zero-cache answer). -/
def cacheConsistent (c : Chain) : Prop :=
  (c.cacheSize = 0 → c.cache = []) ∧
  ∀ k r, alookup c.cache k = some r → r = alookup c.storage k

/-! ## Operations on the innermost frame

Every operation takes the index of the frame it is invoked on (0 is the
innermost frame).  A frame with a smaller index exists exactly when the
addressed frame currently has an active child, and per spec 4.1 every
operation then fails with `InvalidState`, as it does on a sealed frame. -/

/-- The common state-machine guard (spec 4.1 / design note on the
(state x operation) permission table). -/
def opCheck (c : Chain) (i : Nat) : Except LtxError Frame :=
  match c.frames[i]? with
  | none => .error .InvalidState
  | some f =>
    if i ≠ 0 then .error .InvalidState
    else if f.frameSealed then .error .InvalidState
    else .ok f

/-- Replace frame `i`. -/
def setFrame (c : Chain) (i : Nat) (f : Frame) : Chain :=
  { c with frames := c.frames.set i f }

/-- Is a handle for `k` outstanding anywhere in the live chain? -/
def keyActive (c : Chain) (k : LedgerKey) : Bool :=
  c.frames.any (fun f => f.activeKeys.any (fun p => p.2 = k))

/-- `create(entry)` (spec 4.1): `DuplicateKey` when the key resolves to a
live value in self or the parent chain, else stage a created record and
return a new active handle. -/
def create (c : Chain) (i : Nat) (e : LedgerEntry) :
    Except LtxError (Chain × Nat) := do
  let f ← opCheck c i
  let k := ledgerEntryKey e
  if (resolve c k).isSome then
    throw .DuplicateKey
  else
    let hid := f.nextId
    return (setFrame c i { f with
      stage := (k, some e) :: f.stage,
      activeKeys := (hid, k) :: f.activeKeys,
      nextId := hid + 1 }, hid)

/-- `erase(key)` (spec 4.1): `KeyNotFound` when the key has no live value,
else stage an erasure and deactivate any handle held for the key. -/
def eraseKey (c : Chain) (i : Nat) (k : LedgerKey) : Except LtxError Chain := do
  let f ← opCheck c i
  if (resolve c k).isNone then
    throw .KeyNotFound
  else
    return setFrame c i { f with
      stage := (k, none) :: f.stage,
      activeKeys := f.activeKeys.filter (fun p => p.2 ≠ k) }

/-- `load(key)` (spec 4.1): `AlreadyActive` when a handle for the key is
outstanding; otherwise resolve through the chain, copy the result into the
stage for repeatable reads, and return a new active handle (`none` when no
live value exists). -/
def load (c : Chain) (i : Nat) (k : LedgerKey) :
    Except LtxError (Chain × Option Nat) := do
  let f ← opCheck c i
  if keyActive c k then
    throw .AlreadyActive
  else
    match resolve c k with
    | none => return (c, none)
    | some e =>
      let hid := f.nextId
      return (setFrame c i { f with
        stage := (k, some e) :: f.stage,
        activeKeys := (hid, k) :: f.activeKeys,
        nextId := hid + 1 }, some hid)

/-- `loadWithoutRecord(key)` (spec 4.1): same exclusivity and resolution as
`load` but observation only: nothing is staged. -/
def loadWithoutRecord (c : Chain) (i : Nat) (k : LedgerKey) :
    Except LtxError (Chain × Option Nat) := do
  let f ← opCheck c i
  if keyActive c k then
    throw .AlreadyActive
  else
    match resolve c k with
    | none => return (c, none)
    | some _ =>
      let hid := f.nextId
      return (setFrame c i { f with
        activeKeys := (hid, k) :: f.activeKeys,
        nextId := hid + 1 }, some hid)

/-- `loadHeader()` (spec 4.1): fails when a header handle is already active
for the frame. -/
def loadHeader (c : Chain) (i : Nat) : Except LtxError (Chain × Nat) := do
  let f ← opCheck c i
  if f.headerActive.isSome then
    throw .InvalidState
  else
    let hid := f.nextId
    return (setFrame c i { f with
      headerActive := some hid, nextId := hid + 1 }, hid)

/-- Read through an entry handle: `none` when the handle is not active
(spec 4.3: reading through an inactive handle fails). -/
def handleCurrent (c : Chain) (i : Nat) (hid : Nat) : Option LedgerEntry :=
  match c.frames[i]? with
  | none => none
  | some f =>
    match f.activeKeys.find? (fun p => p.1 = hid) with
    | none => none
    | some (_, k) => resolve c k

/-- Write through an active entry handle (`lse.current() = ...` in the
tests): stages the updated entry, which must keep the handle's key. -/
def handleWrite (c : Chain) (i : Nat) (hid : Nat) (e : LedgerEntry) :
    Except LtxError Chain := do
  let f ← opCheck c i
  match f.activeKeys.find? (fun p => p.1 = hid) with
  | none => throw .InvalidState
  | some (_, k) =>
    if ledgerEntryKey e = k then
      return setFrame c i { f with stage := (k, some e) :: f.stage }
    else
      throw .InvalidState

/-- A handle leaving scope (spec 4.3: guaranteed deactivation on scope
exit). -/
def handleDrop (c : Chain) (i : Nat) (hid : Nat) : Chain :=
  match c.frames[i]? with
  | none => c
  | some f =>
    setFrame c i { f with
      activeKeys := f.activeKeys.filter (fun p => p.1 ≠ hid) }

/-- Open a child frame over the innermost frame (the `LedgerTxn(parent)`
constructor): fails when the parent is sealed. -/
def addChild (c : Chain) : Except LtxError Chain :=
  match c.frames with
  | [] => .ok { c with frames := [newFrame c.rootHeader] }
  | f :: _ =>
    if f.frameSealed then .error .InvalidState
    else .ok { c with frames := newFrame f.header :: c.frames }

/-- Apply one staged record to durable storage. -/
def applyRecord (p : LedgerKey × Option LedgerEntry)
    (st : List (LedgerKey × LedgerEntry)) : List (LedgerKey × LedgerEntry) :=
  match p.2 with
  | some e => (p.1, e) :: st.filter (fun q => q.1 ≠ p.1)
  | none => st.filter (fun q => q.1 ≠ p.1)

/-- Apply a stage to durable storage, newest record last so it wins. -/
def applyStage (stage : List (LedgerKey × Option LedgerEntry))
    (st : List (LedgerKey × LedgerEntry)) : List (LedgerKey × LedgerEntry) :=
  stage.foldr applyRecord st

/-- Apply one staged record to the entry cache (update-or-invalidate
precisely the touched key, spec 4.2). -/
def applyCacheRecord (p : LedgerKey × Option LedgerEntry)
    (ca : List (LedgerKey × Option LedgerEntry)) :
    List (LedgerKey × Option LedgerEntry) :=
  (p.1, p.2) :: ca.filter (fun q => q.1 ≠ p.1)

/-- Apply a stage to the entry cache; a zero-capacity cache stays empty. -/
def applyStageCache (cacheSize : Nat)
    (stage : List (LedgerKey × Option LedgerEntry))
    (ca : List (LedgerKey × Option LedgerEntry)) :
    List (LedgerKey × Option LedgerEntry) :=
  if cacheSize = 0 then ca else stage.foldr applyCacheRecord ca

/-- `commit()` (spec 4.1): allowed from Open-NoChild or Sealed; merges each
staged net change into the parent's stage, or applies it to the Root's
storage and caches; propagates the header; detaches the frame. -/
def commit (c : Chain) (i : Nat) : Except LtxError Chain :=
  match c.frames with
  | [] => .error .InvalidState
  | f :: rest =>
    if i ≠ 0 then .error .InvalidState
    else
      match rest with
      | p :: rest' =>
        .ok { c with frames :=
          { p with stage := f.stage ++ p.stage, header := f.header } :: rest' }
      | [] =>
        .ok { c with
          frames := [],
          storage := applyStage f.stage c.storage,
          cache := applyStageCache c.cacheSize f.stage c.cache,
          rootHeader := f.header }

/-- `rollback()` (spec 4.1): allowed from any non-terminated state; discards
the stage entirely and detaches, rolling back any live descendants first. -/
def rollback (c : Chain) (i : Nat) : Except LtxError Chain :=
  if i < c.frames.length then
    .ok { c with frames := c.frames.drop (i + 1) }
  else
    .error .InvalidState

/-! ## The merged view -/

/-- Every key mentioned anywhere in the chain (stages, cache, storage). -/
def allKeys (c : Chain) : List LedgerKey :=
  (c.frames.foldr (fun f acc => f.stage.map Prod.fst ++ acc) []) ++
    c.cache.map Prod.fst ++ c.storage.map Prod.fst

/-- The fully merged view (stage, parent chain, storage) as a canonical
key-sorted list of live entries (spec 4.1: "the fully merged view
(stage, parent chain, storage)"). -/
def mergedEntries (c : Chain) : List (LedgerKey × LedgerEntry) :=
  (sortKeys (allKeys c)).filterMap
    (fun k => (resolve c k).map (fun e => (k, e)))

/-- The hard per-account participation floor of the vote tally.  The engine
implementation is absent from the tree; this constant is pinned by the
"below/above query minimum" and "near min votes boundary" cases of
src/ledger/LedgerStateTests.cpp (QUERY_VOTE_MINIMUM = 1000000000): an
account with balance 999999999 never contributes even for minBalance = 1,
while accounts with balances below `minBalance` do contribute to totals. -/
def voteFloor : Int := 1000000000

/-- Account payloads of a merged view. -/
def accountsOf (l : List (LedgerKey × LedgerEntry)) : List AccountData :=
  l.filterMap (fun p =>
    match p.2.data with
    | .account a => some a
    | _ => none)

/-- Add a vote to a destination's running tally. -/
def addVote : List (Nat × Int) → Nat → Int → List (Nat × Int)
  | [], d, v => [(d, v)]
  | (d', v') :: r, d, v =>
    if d' = d then (d', v' + v) :: r else (d', v') :: addVote r d v

/-- One tally step: an account with an inflation destination and balance at
least `voteFloor` adds its balance to that destination's tally. -/
def tallyStep (acc : List (Nat × Int)) (a : AccountData) : List (Nat × Int) :=
  match a.inflationDest with
  | some d => if voteFloor ≤ a.balance then addVote acc d a.balance else acc
  | none => acc

/-- Tally the votes of a list of accounts. -/
def tallyAccounts (l : List AccountData) : List (Nat × Int) :=
  l.foldl tallyStep []

/-- Winner ordering: votes descending, then destination key descending. -/
def winnerLe (x y : Nat × Int) : Bool :=
  y.2 < x.2 || (x.2 = y.2 && y.1 ≤ x.1)

/-- Ordered insertion for the winner sort. -/
def winnerInsert (x : Nat × Int) : List (Nat × Int) → List (Nat × Int)
  | [] => [x]
  | y :: rest =>
    if winnerLe x y then x :: y :: rest else y :: winnerInsert x rest

/-- Sort winners by (votes descending, destination key descending). -/
def sortWinners (l : List (Nat × Int)) : List (Nat × Int) :=
  l.foldr winnerInsert []

/-- `queryInflationWinners(maxWinners, minBalance)` (spec 4.1), modelled
from the spec and pinned by the tests: tally the merged view's accounts,
keep destinations whose total votes reach `minBalance`, order by (votes
descending, destination key descending), truncate to `maxWinners`. -/
def queryInflationWinners (c : Chain) (i : Nat) (maxWinners : Nat)
    (minBalance : Int) : Except LtxError (List (Nat × Int)) := do
  let _ ← opCheck c i
  return (sortWinners ((tallyAccounts (accountsOf (mergedEntries c))).filter
    (fun p => minBalance ≤ p.2))).take maxWinners

/-! ## Offer queries -/

/-- Offer payloads of a merged view. -/
def offersOf (l : List (LedgerKey × LedgerEntry)) : List OfferData :=
  l.filterMap (fun p =>
    match p.2.data with
    | .offer o => some o
    | _ => none)

/-- Offer preference for a fixed asset pair: numerically lower price is
better, ties broken by lower offer id.  The engine implementation is absent
from the tree; the direction of the price comparison is pinned by the
"different price" and "other offer in child" cases of
src/ledger/LedgerStateTests.cpp, where the offer with the numerically
smaller price wins. -/
def offBetter (o₁ o₂ : OfferData) : Bool :=
  o₁.priceN * o₂.priceD < o₂.priceN * o₁.priceD ||
    (o₁.priceN * o₂.priceD = o₂.priceN * o₁.priceD && o₁.offerID < o₂.offerID)

/-- The most preferred offer of a candidate list. -/
def bestOfferOf : List OfferData → Option OfferData
  | [] => none
  | o :: rest =>
    match bestOfferOf rest with
    | none => some o
    | some b => if offBetter b o then some b else some o

/-- The candidate offers of the order book for a given asset pair, from the
merged view (spec 3, "Order-book index"). -/
def orderBookCandidates (c : Chain) (buying selling : Nat) : List OfferData :=
  (offersOf (mergedEntries c)).filter
    (fun o => o.buying = buying && o.selling = selling)

/-- `loadBestOffer(buying, selling)` (spec 4.1). -/
def loadBestOffer (c : Chain) (i : Nat) (buying selling : Nat) :
    Except LtxError (Option OfferData) := do
  let _ ← opCheck c i
  return bestOfferOf (orderBookCandidates c buying selling)

/-- `loadAllOffers()` (spec 4.1). -/
def loadAllOffers (c : Chain) (i : Nat) : Except LtxError (List OfferData) := do
  let _ ← opCheck c i
  return offersOf (mergedEntries c)

/-- `loadOffersByAccountAndAsset(account, asset)` (spec 4.1). -/
def loadOffersByAccountAndAsset (c : Chain) (i : Nat) (acct asset : Nat) :
    Except LtxError (List OfferData) := do
  let _ ← opCheck c i
  return (offersOf (mergedEntries c)).filter
    (fun o => o.sellerID = acct && (o.buying = asset || o.selling = asset))

/-! ## Delta extraction and sealing -/

/-- One (current, previous) pair of a delta (spec 3, "Delta"). -/
structure EntryDelta where
  current : Option LedgerEntry
  previous : Option LedgerEntry
  deriving DecidableEq, Repr

/-- A frame's delta: net (current, previous) pairs keyed by ledger key,
plus the header pair. -/
structure LedgerTxnDelta where
  entry : List (LedgerKey × EntryDelta)
  headerCurrent : LedgerHeader
  headerPrevious : LedgerHeader
  deriving DecidableEq, Repr

/-- The delta pair a stage yields for one key against a parent view:
nothing for an unstaged key, and records with no net effect (no current and
no previous value) are omitted. -/
def deltaAt (stage : List (LedgerKey × Option LedgerEntry))
    (prev : LedgerKey → Option LedgerEntry) (k : LedgerKey) :
    Option EntryDelta :=
  match alookup stage k with
  | none => none
  | some cur =>
    match cur, prev k with
    | none, none => none
    | cur, p => some ⟨cur, p⟩

/-- The delta entries of a stage relative to a parent view: one pair per
staged key, `previous` resolved through the parent chain. -/
def deltaEntries (stage : List (LedgerKey × Option LedgerEntry))
    (prev : LedgerKey → Option LedgerEntry) :
    List (LedgerKey × EntryDelta) :=
  (sortKeys (stage.map Prod.fst)).filterMap (fun k =>
    (deltaAt stage prev k).map (fun v => (k, v)))

/-- `getDelta()` (spec 4.1): seals the frame and returns the delta computed
against the parent chain as of this call. -/
def getDelta (c : Chain) (i : Nat) :
    Except LtxError (Chain × LedgerTxnDelta) := do
  let f ← opCheck c i
  return (setFrame c i { f with frameSealed := true },
    ⟨deltaEntries f.stage (parentResolve c), f.header, parentHeader c⟩)

/-! ## Header unsealing (observed only in the tests) -/

/-- First half of `unsealHeader(f)`: modelled from the spec's frame state
machine and pinned by the "LedgerTxn unsealHeader" test: requires a sealed
frame with an inactive header handle, then activates the header for the
callback. -/
def unsealHeaderBegin (c : Chain) (i : Nat) :
    Except LtxError (Chain × LedgerHeader) :=
  match c.frames[i]? with
  | none => .error .InvalidState
  | some f =>
    if ¬f.frameSealed then .error .InvalidState
    else if f.headerActive.isSome then .error .InvalidState
    else .ok (setFrame c i { f with
      headerActive := some f.nextId, nextId := f.nextId + 1 }, f.header)

/-- Second half of `unsealHeader(f)`: store the callback's result and
deactivate the header on completion. -/
def unsealHeaderEnd (c : Chain) (i : Nat) (h : LedgerHeader) : Chain :=
  match c.frames[i]? with
  | none => c
  | some f => setFrame c i { f with header := h, headerActive := none }

/-- `unsealHeader(f)`: run `f` on the ledger header of a sealed frame,
deactivating the header on completion. -/
def unsealHeader (c : Chain) (i : Nat) (g : LedgerHeader → LedgerHeader) :
    Except LtxError Chain := do
  let (c₁, h) ← unsealHeaderBegin c i
  return unsealHeaderEnd c₁ i (g h)

/-! ## Handle move assignment (spec 4.3) -/

/-- Move-assign entry handle `src` into entry handle `dst`: a no-op on
self-assignment; otherwise deactivates whatever `dst` previously referenced
and hands `src`'s target over to `dst`, leaving `src` inert. -/
def moveAssignEntry (c : Chain) (i : Nat) (dst src : Nat) : Chain :=
  if dst = src then c
  else
    match c.frames[i]? with
    | none => c
    | some f =>
      let srcTarget := (f.activeKeys.find? (fun p => p.1 = src)).map Prod.snd
      let cleared := f.activeKeys.filter (fun p => p.1 ≠ dst && p.1 ≠ src)
      setFrame c i { f with activeKeys :=
        match srcTarget with
        | some k => (dst, k) :: cleared
        | none => cleared }

/-- Move-assign header handle `src` into header handle `dst` (same
semantics over the frame's singleton header slot). -/
def moveAssignHeader (c : Chain) (i : Nat) (dst src : Nat) : Chain :=
  if dst = src then c
  else
    match c.frames[i]? with
    | none => c
    | some f =>
      if f.headerActive = some src then
        setFrame c i { f with headerActive := some dst }
      else if f.headerActive = some dst then
        setFrame c i { f with headerActive := none }
      else c

/-! ## The checkValid ledger interaction (src/transactions/OperationFrame.cpp)

`OperationFrame::checkValid` opens a child `LedgerTxn ltx(ltxOuter)` over
the outer transaction, performs its reads (header load, source-account
load) inside it, and never commits it, so the child is rolled back when it
goes out of scope. -/

/-- The header load of `checkValid` (`ltx.loadHeader()`), with the handle
dropped at the end of the full expression; a failing load raises and leaves
the chain as it was. -/
def afterHeaderLoad (c : Chain) : Chain :=
  match loadHeader c 0 with
  | .ok (c', _) => c'
  | .error _ => c

/-- The source-account load of `checkValid` (`loadSourceAccount`); a failing
load raises and leaves the chain as it was. -/
def afterSourceLoad (c : Chain) (sourceID : Nat) : Chain :=
  match load c 0 (LedgerKey.account sourceID) with
  | .ok (c', _) => c'
  | .error _ => c

/-- The implicit rollback of the child frame when `checkValid`'s `ltx` goes
out of scope. -/
def afterRollback (c : Chain) : Chain :=
  match rollback c 0 with
  | .ok c' => c'
  | .error _ => c

/-- The ledger interaction of `OperationFrame::checkValid`: child frame,
header load, source-account load, implicit rollback on scope exit.  A
failing step in the C++ code raises and unwinds through the same
destructor, so each fallible step keeps its pre-step chain on error. -/
def checkValidLedgerAccess (c : Chain) (sourceID : Nat) : Chain :=
  match addChild c with
  | .error _ => c
  | .ok c₁ => afterRollback (afterSourceLoad (afterHeaderLoad c₁) sourceID)

/-! ## Auxiliary definitions for the verification -/

/-- The total votes a tally assigns to a destination. -/
def votesIn (tl : List (Nat × Int)) (d : Nat) : Int := (alookup tl d).getD 0

/-- Whether an account contributes to destination `d`'s tally. -/
def contributesTo (d : Nat) (a : AccountData) : Bool :=
  a.inflationDest = some d && voteFloor ≤ a.balance

/-- Cache-free resolution: the merged view read directly over durable
storage, bypassing the Root entry cache. -/
def resolveNC (c : Chain) (k : LedgerKey) : Option LedgerEntry :=
  resolveFrom { c with cache := [] } c.frames k

/-- A concrete header for the example chains. -/
def hdr0 : LedgerHeader := ⟨1, 10⟩

/-- A concrete account entry. -/
def accEntry (id : Nat) (bal : Int) (dest : Option Nat) : LedgerEntry :=
  ⟨1, .account ⟨id, bal, dest⟩⟩

/-- A concrete offer entry. -/
def offEntry (seller oid b s : Nat) (pn pd amt : Int) : LedgerEntry :=
  ⟨1, .offer ⟨seller, oid, b, s, pn, pd, amt⟩⟩

/-- An empty Root with both caches disabled. -/
def emptyRoot : Chain := ⟨[], [], [], 0, hdr0⟩

/-- A chain holding one sealed frame over an empty Root. -/
def sealedChain : Chain :=
  ⟨[{ newFrame hdr0 with frameSealed := true }], [], [], 0, hdr0⟩

/-- A chain holding two open frames over an empty Root (the outer frame has
an active child). -/
def childChain : Chain := ⟨[newFrame hdr0, newFrame hdr0], [], [], 0, hdr0⟩

/-- A chain with one open frame holding a created account entry, for the
round-trip witnesses. -/
def roundTripChain : Chain :=
  ⟨[⟨[(LedgerKey.account 1, some (accEntry 1 5 none))], false, hdr0, [],
    none, 0⟩], [], [], 0, hdr0⟩

/-- The chain after `create(accEntry 1 5)` on a fresh frame over an empty
Root. -/
def resChainP : Chain :=
  ⟨[⟨[(LedgerKey.account 1, some (accEntry 1 5 none))], false, hdr0,
    [(0, LedgerKey.account 1)], none, 1⟩], [], [], 0, hdr0⟩

/-- `resChainP` with a child frame that erased the key. -/
def resChainErased : Chain :=
  ⟨[⟨[(LedgerKey.account 1, none)], false, hdr0, [], none, 0⟩,
    ⟨[(LedgerKey.account 1, some (accEntry 1 5 none))], false, hdr0,
      [(0, LedgerKey.account 1)], none, 1⟩], [], [], 0, hdr0⟩

/-- `resChainErased` after the child re-created the key (resurrection). -/
def resChainRecreated : Chain :=
  ⟨[⟨[(LedgerKey.account 1, some (accEntry 1 7 none)),
      (LedgerKey.account 1, none)], false, hdr0,
      [(0, LedgerKey.account 1)], none, 1⟩,
    ⟨[(LedgerKey.account 1, some (accEntry 1 5 none))], false, hdr0,
      [(0, LedgerKey.account 1)], none, 1⟩], [], [], 0, hdr0⟩

/-- Two live offers on the same pair with different prices, held at the
Root (offer 1 at price 2/1, offer 2 at price 1/1). -/
def offerChain : Chain :=
  ⟨[newFrame hdr0],
   [(LedgerKey.offer 1 1, offEntry 1 1 10 20 2 1 1),
    (LedgerKey.offer 1 2, offEntry 1 2 10 20 1 1 1)], [], 0, hdr0⟩

/-- Two live offers on the same pair with identical price, held at the
Root. -/
def offerTieChain : Chain :=
  ⟨[newFrame hdr0],
   [(LedgerKey.offer 1 1, offEntry 1 1 10 20 1 1 1),
    (LedgerKey.offer 1 2, offEntry 1 2 10 20 1 1 1)], [], 0, hdr0⟩

/-- The same two identical-price offers with the nesting split differently:
offer 1 staged in the frame, offer 2 in durable storage, entry cache
enabled (capacity 5). -/
def offerTieSplit : Chain :=
  ⟨[⟨[(LedgerKey.offer 1 1, some (offEntry 1 1 10 20 1 1 1))], false, hdr0,
    [], none, 0⟩],
   [(LedgerKey.offer 1 2, offEntry 1 2 10 20 1 1 1)], [], 5, hdr0⟩

/-- One account with balance 999999999 (just below the participation
floor) voting for destination 2, held at the Root. -/
def lowBalanceChain : Chain :=
  ⟨[newFrame hdr0],
   [(LedgerKey.account 1, accEntry 1 999999999 (some 2))], [], 0, hdr0⟩

/-- The "total near min votes boundary" population: accounts with balances
10^9+3 and 10^9+7, both voting for destination 3. -/
def boundaryChain : Chain :=
  ⟨[newFrame hdr0],
   [(LedgerKey.account 1, accEntry 1 1000000003 (some 3)),
    (LedgerKey.account 2, accEntry 2 1000000007 (some 3))], [], 0, hdr0⟩

/-- The boundary population with the nesting split differently: one voter
staged in the frame, the other in durable storage, entry cache enabled. -/
def boundarySplit : Chain :=
  ⟨[⟨[(LedgerKey.account 1, some (accEntry 1 1000000003 (some 3)))], false,
    hdr0, [], none, 0⟩],
   [(LedgerKey.account 2, accEntry 2 1000000007 (some 3))], [], 5, hdr0⟩

/-- A frame with two created entries, both handles outstanding, and an
active header handle, for the move-assignment witnesses. -/
def moveFrame : Frame :=
  ⟨[(LedgerKey.account 2, some (accEntry 2 6 none)),
    (LedgerKey.account 1, some (accEntry 1 5 none))], false, hdr0,
    [(1, LedgerKey.account 2), (0, LedgerKey.account 1)], some 7, 2⟩

/-- The chain holding `moveFrame` as its only frame. -/
def moveChain : Chain :=
  ⟨[moveFrame], [], [], 0, hdr0⟩

/-! ## Lemmas -/
theorem alookup_nil {κ β : Type} [DecidableEq κ] (k : κ) :
    alookup ([] : List (κ × β)) k = none := rfl

theorem alookup_cons_self {κ β : Type} [DecidableEq κ] (k : κ) (v : β)
    (l : List (κ × β)) : alookup ((k, v) :: l) k = some v := by
  simp [alookup]

theorem alookup_cons_ne {κ β : Type} [DecidableEq κ] {k k' : κ} (v : β)
    (l : List (κ × β)) (h : k' ≠ k) :
    alookup ((k', v) :: l) k = alookup l k := by
  simp [alookup, h]

theorem alookup_append {κ β : Type} [DecidableEq κ] (l₁ l₂ : List (κ × β))
    (k : κ) : alookup (l₁ ++ l₂) k =
      (alookup l₁ k).elim (alookup l₂ k) some := by
  induction l₁ with
  | nil => simp [alookup]
  | cons p r ih =>
    by_cases h : p.1 = k
    · simp [alookup, h]
    · simpa [alookup, h] using ih

theorem alookup_filter_ne {κ β : Type} [DecidableEq κ] (l : List (κ × β))
    {k k' : κ} (h : k' ≠ k) :
    alookup (l.filter (fun p => p.1 ≠ k')) k = alookup l k := by
  induction l with
  | nil => rfl
  | cons p r ih =>
    simp only [decide_not] at ih ⊢
    rw [List.filter_cons]
    by_cases hp' : p.1 = k'
    · have hpk : p.1 ≠ k := fun hh => h (hp' ▸ hh ▸ rfl)
      simp only [hp', decide_True, Bool.not_true, if_false,
        Bool.false_eq_true, ite_false]
      rw [ih, show p = (p.1, p.2) from rfl, alookup_cons_ne _ _ hpk]
    · simp only [hp', decide_False, Bool.not_false, ite_true]
      by_cases hp : p.1 = k
      · rw [show p = (p.1, p.2) from rfl, hp, alookup_cons_self,
          alookup_cons_self]
      · rw [show p = (p.1, p.2) from rfl, alookup_cons_ne _ _ hp,
          alookup_cons_ne _ _ hp, ih]

theorem alookup_filter_self {κ β : Type} [DecidableEq κ] (l : List (κ × β))
    (k : κ) : alookup (l.filter (fun p => p.1 ≠ k)) k = none := by
  induction l with
  | nil => rfl
  | cons p r ih =>
    by_cases hp : p.1 = k
    · simpa [alookup, hp] using ih
    · simpa [alookup, hp] using ih

theorem alookup_some_mem {κ β : Type} [DecidableEq κ] {l : List (κ × β)}
    {k : κ} {v : β} (h : alookup l k = some v) : k ∈ l.map Prod.fst := by
  induction l with
  | nil => simp [alookup] at h
  | cons p r ih =>
    by_cases hp : p.1 = k
    · simp [hp]
    · rw [show p = (p.1, p.2) from rfl, alookup_cons_ne _ _ hp] at h
      simp [ih h]

/-! ## A total order on ledger keys

Ledger keys are "totally ordered for deterministic iteration" (spec 3).
We realize the order through an injective encoding into Nat triples. -/
theorem keyEnc_injective {k k' : LedgerKey} (h : keyEnc k = keyEnc k') :
    k = k' := by
  cases k <;> cases k' <;> simp_all [keyEnc]

theorem tripleLt_irrefl (x : Nat × Nat × Nat) : tripleLt x x = false := by
  simp [tripleLt]

theorem tripleLt_trans {x y z : Nat × Nat × Nat} (h₁ : tripleLt x y = true)
    (h₂ : tripleLt y z = true) : tripleLt x z = true := by
  simp only [tripleLt, Bool.or_eq_true, Bool.and_eq_true, decide_eq_true_eq]
    at h₁ h₂ ⊢
  omega

theorem tripleLt_conn {x y : Nat × Nat × Nat} (h₁ : tripleLt x y = false)
    (h₂ : tripleLt y x = false) : x = y := by
  simp only [tripleLt, Bool.or_eq_false_iff, Bool.and_eq_false_iff,
    decide_eq_false_iff_not, decide_eq_true_eq] at h₁ h₂
  have : x.1 = y.1 ∧ x.2.1 = y.2.1 ∧ x.2.2 = y.2.2 := by omega
  obtain ⟨a, b, c⟩ := this
  exact Prod.ext a (Prod.ext b c)

theorem keyLt_irrefl (k : LedgerKey) : keyLt k k = false :=
  tripleLt_irrefl _

theorem keyLt_trans {a b c : LedgerKey} (h₁ : keyLt a b = true)
    (h₂ : keyLt b c = true) : keyLt a c = true := tripleLt_trans h₁ h₂

theorem keyLt_conn {a b : LedgerKey} (h₁ : keyLt a b = false)
    (h₂ : keyLt b a = false) : a = b :=
  keyEnc_injective (tripleLt_conn h₁ h₂)

theorem keyLt_asymm {a b : LedgerKey} (h : keyLt a b = true) :
    keyLt b a = false := by
  cases hb : keyLt b a with
  | false => rfl
  | true =>
    have := keyLt_trans h hb
    rw [keyLt_irrefl] at this
    exact absurd this (by simp)

/-! ## Canonical sorted key lists -/

theorem mem_sKeyInsert {x k : LedgerKey} {l : List LedgerKey} :
    x ∈ sKeyInsert k l ↔ x = k ∨ x ∈ l := by
  induction l with
  | nil => simp [sKeyInsert]
  | cons k' rest ih =>
    by_cases h₁ : keyLt k k'
    · simp [sKeyInsert, h₁, or_comm, or_assoc, or_left_comm]
    · by_cases h₂ : keyLt k' k
      · simp only [sKeyInsert, h₁, if_false, h₂, if_true, Bool.false_eq_true,
          ite_false, ite_true, List.mem_cons, ih]
        tauto
      · have : k = k' := keyLt_conn (by simpa using h₁) (by simpa using h₂)
        subst this
        simp only [sKeyInsert, keyLt_irrefl, Bool.false_eq_true, ite_false,
          List.mem_cons]
        tauto

theorem pairwise_sKeyInsert (k : LedgerKey) (l : List LedgerKey)
    (h : l.Pairwise (fun a b => keyLt a b = true)) :
    (sKeyInsert k l).Pairwise (fun a b => keyLt a b = true) := by
  induction l with
  | nil => simp [sKeyInsert]
  | cons k' rest ih =>
    rw [List.pairwise_cons] at h
    obtain ⟨hk', hrest⟩ := h
    by_cases h₁ : keyLt k k'
    · rw [sKeyInsert, if_pos h₁]
      refine List.pairwise_cons.mpr ⟨?_, List.pairwise_cons.mpr ⟨hk', hrest⟩⟩
      intro b hb
      rcases List.mem_cons.mp hb with hb | hb
      · exact hb ▸ h₁
      · exact keyLt_trans h₁ (hk' b hb)
    · by_cases h₂ : keyLt k' k
      · rw [sKeyInsert, if_neg (by simpa using h₁), if_pos h₂]
        refine List.pairwise_cons.mpr ⟨?_, ih hrest⟩
        intro b hb
        rcases mem_sKeyInsert.mp hb with hb | hb
        · exact hb ▸ h₂
        · exact hk' b hb
      · rw [sKeyInsert, if_neg (by simpa using h₁), if_neg (by simpa using h₂)]
        exact List.pairwise_cons.mpr ⟨hk', hrest⟩

theorem pairwise_sortKeys (l : List LedgerKey) :
    (sortKeys l).Pairwise (fun a b => keyLt a b = true) := by
  induction l with
  | nil => exact List.Pairwise.nil
  | cons k rest ih => exact pairwise_sKeyInsert k _ ih

theorem mem_sortKeys {x : LedgerKey} {l : List LedgerKey} :
    x ∈ sortKeys l ↔ x ∈ l := by
  induction l with
  | nil => simp [sortKeys]
  | cons k rest ih =>
    simp only [sortKeys, List.foldr_cons, mem_sKeyInsert, List.mem_cons]
    rw [show List.foldr sKeyInsert [] rest = sortKeys rest from rfl] at *
    tauto

/-- Two strictly sorted key lists with the same members are equal. -/
theorem sorted_key_ext : ∀ {l₁ l₂ : List LedgerKey},
    l₁.Pairwise (fun a b => keyLt a b = true) →
    l₂.Pairwise (fun a b => keyLt a b = true) →
    (∀ x, x ∈ l₁ ↔ x ∈ l₂) → l₁ = l₂
  | [], [], _, _, _ => rfl
  | [], b :: l₂, _, _, hmem => by
    have := (hmem b).mpr (List.mem_cons_self b l₂)
    simp at this
  | a :: l₁, [], _, _, hmem => by
    have := (hmem a).mp (List.mem_cons_self a l₁)
    simp at this
  | a :: l₁, b :: l₂, h₁, h₂, hmem => by
    rw [List.pairwise_cons] at h₁ h₂
    have hab : a = b := by
      have ha : a ∈ b :: l₂ := (hmem a).mp (List.mem_cons_self a l₁)
      have hb : b ∈ a :: l₁ := (hmem b).mpr (List.mem_cons_self b l₂)
      rcases List.mem_cons.mp ha with h | h
      · exact h
      · rcases List.mem_cons.mp hb with h' | h'
        · exact h'.symm
        · have hab : keyLt a b = true := h₁.1 b h'
          have hba : keyLt b a = true := h₂.1 a h
          exact absurd (keyLt_asymm hab) (by simp [hba])
    subst hab
    have htail : ∀ x, x ∈ l₁ ↔ x ∈ l₂ := by
      intro x
      constructor
      · intro hx
        rcases List.mem_cons.mp ((hmem x).mp (List.mem_cons_of_mem a hx))
          with h | h
        · subst h
          exact absurd (h₁.1 x hx) (by simp [keyLt_irrefl])
        · exact h
      · intro hx
        rcases List.mem_cons.mp ((hmem x).mpr (List.mem_cons_of_mem a hx))
          with h | h
        · subst h
          exact absurd (h₂.1 x hx) (by simp [keyLt_irrefl])
        · exact h
    rw [sorted_key_ext h₁.2 h₂.2 htail]

theorem rootResolve_of_consistent {c : Chain} (h : cacheConsistent c)
    (k : LedgerKey) : rootResolve c k = alookup c.storage k := by
  unfold rootResolve
  cases hc : alookup c.cache k with
  | none => rfl
  | some r => exact h.2 k r hc

theorem resolveFrom_some_mem {c : Chain} {k : LedgerKey} {e : LedgerEntry} :
    ∀ {fs : List Frame}, resolveFrom c fs k = some e →
    k ∈ (fs.foldr (fun f acc => f.stage.map Prod.fst ++ acc) []) ++
      c.cache.map Prod.fst ++ c.storage.map Prod.fst := by
  intro fs
  induction fs with
  | nil =>
    intro h
    simp only [resolveFrom, rootResolve] at h
    cases hc : alookup c.cache k with
    | some r =>
      rw [hc] at h
      simp [alookup_some_mem hc]
    | none =>
      rw [hc] at h
      simp [alookup_some_mem h]
  | cons f rest ih =>
    intro h
    simp only [resolveFrom] at h
    cases hs : alookup f.stage k with
    | some r =>
      simp only [List.foldr_cons, List.append_assoc, List.mem_append]
      exact Or.inl (alookup_some_mem hs)
    | none =>
      rw [hs] at h
      have := ih h
      simp only [List.foldr_cons, List.append_assoc, List.mem_append]
        at this ⊢
      tauto

theorem resolve_some_mem_allKeys {c : Chain} {k : LedgerKey} {e : LedgerEntry}
    (h : resolve c k = some e) : k ∈ allKeys c := by
  have := @resolveFrom_some_mem c k e c.frames h
  simpa [allKeys] using this

/-- The merged view depends only on the resolution function: two chains that
resolve every key identically have the same merged view. -/
theorem mergedEntries_ext {c c' : Chain}
    (h : ∀ k, resolve c k = resolve c' k) :
    mergedEntries c = mergedEntries c' := by
  unfold mergedEntries
  have hfil : ∀ (d : Chain) (l : List LedgerKey),
      l.filterMap (fun k => (resolve d k).map (fun e => (k, e))) =
      (l.filter (fun k => (resolve d k).isSome)).filterMap
        (fun k => (resolve d k).map (fun e => (k, e))) := by
    intro d l
    induction l with
    | nil => rfl
    | cons k rest ih =>
      rw [List.filter_cons]
      cases hr : resolve d k with
      | none => simpa [List.filterMap_cons, hr] using ih
      | some e => simpa [List.filterMap_cons, hr] using ih
  rw [hfil c, hfil c']
  have hkeys : (sortKeys (allKeys c)).filter (fun k => (resolve c k).isSome) =
      (sortKeys (allKeys c')).filter (fun k => (resolve c' k).isSome) := by
    apply sorted_key_ext
    · exact List.Pairwise.filter _ (pairwise_sortKeys _)
    · exact List.Pairwise.filter _ (pairwise_sortKeys _)
    · intro x
      simp only [List.mem_filter, mem_sortKeys, decide_eq_true_eq,
        Option.isSome_iff_exists]
      constructor
      · rintro ⟨_, e, hx⟩
        rw [h x] at hx
        exact ⟨resolve_some_mem_allKeys hx, e, hx⟩
      · rintro ⟨_, e, hx⟩
        rw [← h x] at hx
        exact ⟨resolve_some_mem_allKeys hx, e, hx⟩
  rw [hkeys]
  apply List.filterMap_congr
  intro x hx
  rw [h x]

/-! ## Stage-application and commit lemmas -/

theorem mem_keys_alookup {κ β : Type} [DecidableEq κ] (l : List (κ × β))
    (k : κ) : k ∈ l.map Prod.fst ↔ (alookup l k).isSome := by
  induction l with
  | nil => simp [alookup]
  | cons p r ih =>
    obtain ⟨k', v⟩ := p
    by_cases hp : k' = k
    · subst hp
      simp [alookup_cons_self]
    · rw [alookup_cons_ne _ _ hp]
      simp only [List.map_cons, List.mem_cons]
      constructor
      · rintro (h | h)
        · exact absurd h.symm hp
        · exact ih.mp h
      · intro h
        exact Or.inr (ih.mpr h)

theorem alookup_applyStage (stage : List (LedgerKey × Option LedgerEntry))
    (st : List (LedgerKey × LedgerEntry)) (k : LedgerKey) :
    alookup (applyStage stage st) k =
      match alookup stage k with
      | some (some e) => some e
      | some none => none
      | none => alookup st k := by
  induction stage with
  | nil => rfl
  | cons p rest ih =>
    obtain ⟨k', r⟩ := p
    have hstep : applyStage ((k', r) :: rest) st =
        applyRecord (k', r) (applyStage rest st) := rfl
    rw [hstep]
    by_cases hp : k' = k
    · subst hp
      cases r with
      | some e =>
        show alookup ((k', e) :: (applyStage rest st).filter
          (fun q => q.1 ≠ k')) k' = _
        rw [alookup_cons_self, alookup_cons_self]
      | none =>
        show alookup ((applyStage rest st).filter (fun q => q.1 ≠ k')) k' = _
        rw [alookup_filter_self, alookup_cons_self]
    · rw [alookup_cons_ne _ _ hp, ← ih]
      cases r with
      | some e =>
        show alookup ((k', e) :: (applyStage rest st).filter
          (fun q => q.1 ≠ k')) k = _
        rw [alookup_cons_ne _ _ hp, alookup_filter_ne _ hp]
      | none =>
        show alookup ((applyStage rest st).filter (fun q => q.1 ≠ k')) k = _
        rw [alookup_filter_ne _ hp]

theorem alookup_cacheFold (stage : List (LedgerKey × Option LedgerEntry))
    (ca : List (LedgerKey × Option LedgerEntry)) (k : LedgerKey) :
    alookup (stage.foldr applyCacheRecord ca) k =
      match alookup stage k with
      | some r => some r
      | none => alookup ca k := by
  induction stage with
  | nil => rfl
  | cons p rest ih =>
    obtain ⟨k', r⟩ := p
    show alookup ((k', r) :: (rest.foldr applyCacheRecord ca).filter
      (fun q => q.1 ≠ k')) k = _
    by_cases hp : k' = k
    · subst hp
      rw [alookup_cons_self, alookup_cons_self]
    · rw [alookup_cons_ne _ _ hp, alookup_filter_ne _ hp, ih,
        alookup_cons_ne _ _ hp]

theorem resolveFrom_congr_root {c c' : Chain} (hca : c.cache = c'.cache)
    (hst : c.storage = c'.storage) (fs : List Frame) (k : LedgerKey) :
    resolveFrom c fs k = resolveFrom c' fs k := by
  induction fs with
  | nil => simp [resolveFrom, rootResolve, hca, hst]
  | cons f rest ih =>
    simp only [resolveFrom]
    cases alookup f.stage k with
    | some r => rfl
    | none => simpa using ih

/-- Committing the innermost frame preserves the merged view seen from the
new innermost level (its former parent). -/
theorem resolve_commit {c c₂ : Chain} (hcons : cacheConsistent c)
    (h : commit c 0 = .ok c₂) (k : LedgerKey) : resolve c₂ k = resolve c k := by
  unfold commit at h
  cases hf : c.frames with
  | nil => rw [hf] at h; exact absurd h (by simp)
  | cons f rest =>
    rw [hf] at h
    simp only [ne_eq, not_true_eq_false, ite_false, if_neg] at h
    cases hr : rest with
    | cons p rest' =>
      rw [hr] at h
      injection h with h
      subst h
      unfold resolve
      simp only [resolveFrom]
      rw [hf, hr]
      simp only [resolveFrom, alookup_append]
      cases hfs : alookup f.stage k with
      | some r => simp [hfs]
      | none =>
        simp only [Option.elim]
        cases hps : alookup p.stage k with
        | some r => simp
        | none =>
          simp only
          apply resolveFrom_congr_root
          · rfl
          · rfl
    | nil =>
      rw [hr] at h
      injection h with h
      subst h
      have hlhs : ∀ z : Chain, z.cache = applyStageCache c.cacheSize f.stage
          c.cache → z.storage = applyStage f.stage c.storage → z.frames = [] →
          resolve z k =
          match alookup (applyStageCache c.cacheSize f.stage c.cache) k with
          | some r => r
          | none => alookup (applyStage f.stage c.storage) k := by
        intro z hzc hzs hzf
        unfold resolve
        rw [hzf]
        show rootResolve z k = _
        unfold rootResolve
        rw [hzc, hzs]
      rw [hlhs _ rfl rfl rfl]
      unfold resolve
      rw [hf, hr]
      show _ = match alookup f.stage k with
        | some r => r
        | none => rootResolve c k
      by_cases hcz : c.cacheSize = 0
      · rw [show applyStageCache c.cacheSize f.stage c.cache = c.cache by
          unfold applyStageCache; rw [if_pos hcz]]
        rw [hcons.1 hcz, alookup_nil, rootResolve_of_consistent hcons]
        show alookup (applyStage f.stage c.storage) k =
          match alookup f.stage k with
          | some r => r
          | none => alookup c.storage k
        rw [alookup_applyStage]
        cases alookup f.stage k with
        | some r => cases r <;> rfl
        | none => rfl
      · rw [show applyStageCache c.cacheSize f.stage c.cache =
          f.stage.foldr applyCacheRecord c.cache by
          unfold applyStageCache; rw [if_neg hcz]]
        rw [alookup_cacheFold, alookup_applyStage]
        cases alookup f.stage k with
        | some r => cases r <;> rfl
        | none =>
          show (match alookup c.cache k with
            | some r => r
            | none => alookup c.storage k) = rootResolve c k
          unfold rootResolve
          rfl

/-- Committing the innermost frame preserves Root entry-cache consistency. -/
theorem cacheConsistent_commit {c c₂ : Chain} (hcons : cacheConsistent c)
    (h : commit c 0 = .ok c₂) : cacheConsistent c₂ := by
  unfold commit at h
  cases hf : c.frames with
  | nil => rw [hf] at h; exact absurd h (by simp)
  | cons f rest =>
    rw [hf] at h
    simp only [ne_eq, not_true_eq_false, ite_false, if_neg] at h
    cases hr : rest with
    | cons p rest' =>
      rw [hr] at h
      injection h with h
      subst h
      exact hcons
    | nil =>
      rw [hr] at h
      injection h with h
      subst h
      constructor
      · intro hz
        have hz' : c.cacheSize = 0 := hz
        show applyStageCache c.cacheSize f.stage c.cache = []
        unfold applyStageCache
        rw [if_pos hz']
        exact hcons.1 hz'
      · intro k r hk
        replace hk : alookup (applyStageCache c.cacheSize f.stage c.cache) k =
          some r := hk
        show r = alookup (applyStage f.stage c.storage) k
        by_cases hcz : c.cacheSize = 0
        · rw [show applyStageCache c.cacheSize f.stage c.cache = c.cache by
            unfold applyStageCache; rw [if_pos hcz]] at hk
          rw [hcons.1 hcz, alookup_nil] at hk
          exact absurd hk (by simp)
        · rw [show applyStageCache c.cacheSize f.stage c.cache =
            f.stage.foldr applyCacheRecord c.cache by
            unfold applyStageCache; rw [if_neg hcz]] at hk
          rw [alookup_cacheFold] at hk
          rw [alookup_applyStage]
          cases hfs : alookup f.stage k with
          | some rc =>
            rw [hfs] at hk
            replace hk : (some rc : Option (Option LedgerEntry)) = some r := hk
            injection hk with hk
            subst hk
            cases rc <;> rfl
          | none =>
            rw [hfs] at hk
            replace hk : alookup c.cache k = some r := hk
            show r = alookup c.storage k
            exact hcons.2 k r hk

theorem alookup_deltaEntries (stage : List (LedgerKey × Option LedgerEntry))
    (prev : LedgerKey → Option LedgerEntry) (k : LedgerKey) :
    alookup (deltaEntries stage prev) k = deltaAt stage prev k := by
  unfold deltaEntries
  have hgen : ∀ (l : List LedgerKey),
      alookup (l.filterMap (fun k' => (deltaAt stage prev k').map
        (fun v => (k', v)))) k =
      if k ∈ l then deltaAt stage prev k else none := by
    intro l
    induction l with
    | nil => simp [alookup]
    | cons a rest ih =>
      by_cases hk : k = a
      · subst hk
        cases hg : deltaAt stage prev k with
        | none =>
          simp only [List.filterMap_cons, hg, Option.map_none']
          rw [ih]
          by_cases hmem : k ∈ rest <;> simp [hmem, hg]
        | some v =>
          simp only [List.filterMap_cons, hg, Option.map_some']
          rw [alookup_cons_self]
          simp [hg]
      · have hka : a ≠ k := fun hh => hk hh.symm
        cases hg : deltaAt stage prev a with
        | none =>
          simp only [List.filterMap_cons, hg, Option.map_none']
          rw [ih]
          simp [List.mem_cons, hk]
        | some v =>
          simp only [List.filterMap_cons, hg, Option.map_some']
          rw [alookup_cons_ne _ _ hka, ih]
          simp [List.mem_cons, hk]
  rw [hgen]
  by_cases hmem : k ∈ sortKeys (stage.map Prod.fst)
  · rw [if_pos hmem]
  · rw [if_neg hmem]
    rw [mem_sortKeys, mem_keys_alookup] at hmem
    unfold deltaAt
    cases hs : alookup stage k with
    | some cur => rw [hs] at hmem; simp at hmem
    | none => rfl

/-! ## Winner-sort and best-offer lemmas -/

theorem winnerLe_total (x y : Nat × Int) :
    winnerLe x y = true ∨ winnerLe y x = true := by
  simp only [winnerLe, Bool.or_eq_true, Bool.and_eq_true, decide_eq_true_eq]
  omega

theorem winnerInsert_perm (x : Nat × Int) (l : List (Nat × Int)) :
    (winnerInsert x l).Perm (x :: l) := by
  induction l with
  | nil => simp [winnerInsert]
  | cons y rest ih =>
    by_cases h : winnerLe x y
    · rw [winnerInsert, if_pos h]
    · rw [winnerInsert, if_neg h]
      exact List.Perm.trans (List.Perm.cons y ih) (List.Perm.swap x y rest)

theorem winnerInsert_sorted (x : Nat × Int) (l : List (Nat × Int))
    (h : l.Pairwise (fun a b => winnerLe a b = true)) :
    (winnerInsert x l).Pairwise (fun a b => winnerLe a b = true) := by
  induction l with
  | nil => simp [winnerInsert]
  | cons y rest ih =>
    rw [List.pairwise_cons] at h
    by_cases hxy : winnerLe x y
    · rw [winnerInsert, if_pos hxy]
      refine List.pairwise_cons.mpr ⟨?_, List.pairwise_cons.mpr h⟩
      intro b hb
      rcases List.mem_cons.mp hb with hb | hb
      · exact hb ▸ hxy
      · have hyb := h.1 b hb
        simp only [winnerLe, Bool.or_eq_true, Bool.and_eq_true,
          decide_eq_true_eq] at hxy hyb ⊢
        omega
    · rw [winnerInsert, if_neg hxy]
      have hyx : winnerLe y x = true :=
        (winnerLe_total x y).resolve_left (by simpa using hxy)
      refine List.pairwise_cons.mpr ⟨?_, ih h.2⟩
      intro b hb
      rcases (winnerInsert_perm x rest).mem_iff.mp hb with hb
      rcases List.mem_cons.mp hb with hb | hb
      · exact hb ▸ hyx
      · exact h.1 b hb

theorem sortWinners_perm (l : List (Nat × Int)) : (sortWinners l).Perm l := by
  induction l with
  | nil => simp [sortWinners]
  | cons x rest ih =>
    exact List.Perm.trans (winnerInsert_perm x (sortWinners rest))
      (List.Perm.cons x ih)

theorem sortWinners_sorted (l : List (Nat × Int)) :
    (sortWinners l).Pairwise (fun a b => winnerLe a b = true) := by
  induction l with
  | nil => exact List.Pairwise.nil
  | cons x rest ih => exact winnerInsert_sorted x _ ih

theorem offBetter_irrefl (o : OfferData) : offBetter o o = false := by
  simp [offBetter]

theorem offBetter_asymm {o₁ o₂ : OfferData} (h : offBetter o₁ o₂ = true) :
    offBetter o₂ o₁ = false := by
  simp only [offBetter, Bool.or_eq_true, Bool.and_eq_true,
    decide_eq_true_eq] at h
  simp only [offBetter, Bool.or_eq_false_iff, Bool.and_eq_false_iff,
    decide_eq_false_iff_not]
  rcases h with h | ⟨he, hi⟩
  · exact ⟨lt_asymm h, Or.inl (fun he => absurd (he ▸ h) (lt_irrefl _))⟩
  · exact ⟨fun hq => absurd (he ▸ hq) (lt_irrefl _), Or.inr (Nat.lt_asymm hi)⟩

theorem bestOfferOf_all_eq {o : OfferData} : ∀ {l : List OfferData},
    l ≠ [] → (∀ x ∈ l, x = o) → bestOfferOf l = some o
  | [], h, _ => absurd rfl h
  | x :: rest, _, hall => by
    have hx : x = o := hall x (List.mem_cons_self x rest)
    subst hx
    cases hrest : rest with
    | nil => simp [bestOfferOf]
    | cons y rest' =>
      have hbest : bestOfferOf rest = some x := by
        rw [hrest]
        exact bestOfferOf_all_eq (by simp)
          (fun z hz => ((hall z (hrest ▸ List.mem_cons_of_mem x hz)).trans rfl))
      rw [hrest] at hbest
      show (match bestOfferOf (y :: rest') with
        | none => some x
        | some b => if offBetter b x then some b else some x) = some x
      rw [hbest]
      simp [offBetter_irrefl]

/-- If every candidate is one of two offers, the dominant one is returned. -/
theorem bestOfferOf_dominates {o₁ o₂ : OfferData}
    (hb : offBetter o₁ o₂ = true) : ∀ {l : List OfferData},
    (∀ x ∈ l, x = o₁ ∨ x = o₂) → o₁ ∈ l → bestOfferOf l = some o₁
  | [], _, h₁ => absurd h₁ (by simp)
  | x :: rest, hall, h₁ => by
    by_cases hmem : o₁ ∈ rest
    · have hrest : bestOfferOf rest = some o₁ :=
        bestOfferOf_dominates hb (fun z hz => hall z (List.mem_cons_of_mem x hz))
          hmem
      show (match bestOfferOf rest with
        | none => some x
        | some b => if offBetter b x then some b else some x) = some o₁
      rw [hrest]
      rcases hall x (List.mem_cons_self x rest) with hx | hx
      · subst hx
        simp [offBetter_irrefl]
      · subst hx
        simp [hb]
    · have hx : x = o₁ := by
        rcases List.mem_cons.mp h₁ with h | h
        · exact h.symm
        · exact absurd h hmem
      subst hx
      show (match bestOfferOf rest with
        | none => some x
        | some b => if offBetter b x then some b else some x) = some x
      cases hr : rest with
      | nil => simp [bestOfferOf]
      | cons y rest' =>
        have hall₂ : ∀ z ∈ rest, z = o₂ := by
          intro z hz
          rcases hall z (List.mem_cons_of_mem x hz) with h | h
          · exact absurd (h ▸ hz) hmem
          · exact h
        have hbest : bestOfferOf rest = some o₂ := by
          rw [hr]
          exact bestOfferOf_all_eq (by simp) (fun z hz => hall₂ z (hr ▸ hz))
        rw [hr] at hbest
        rw [hbest]
        simp [offBetter_asymm hb]

/-! ## Tally lemmas -/

theorem alookup_addVote_self (tl : List (Nat × Int)) (d : Nat) (v : Int) :
    alookup (addVote tl d v) d = some ((alookup tl d).getD 0 + v) := by
  induction tl with
  | nil => simp [addVote, alookup]
  | cons p rest ih =>
    obtain ⟨d', v'⟩ := p
    by_cases hd : d' = d
    · subst hd
      rw [show addVote ((d', v') :: rest) d' v = (d', v' + v) :: rest by
        simp [addVote], alookup_cons_self, alookup_cons_self]
      simp [Int.add_comm]
    · rw [show addVote ((d', v') :: rest) d v =
        (d', v') :: addVote rest d v by simp [addVote, hd],
        alookup_cons_ne _ _ hd, alookup_cons_ne _ _ hd, ih]

theorem alookup_addVote_ne (tl : List (Nat × Int)) {d d' : Nat} (v : Int)
    (h : d ≠ d') : alookup (addVote tl d v) d' = alookup tl d' := by
  induction tl with
  | nil => simp [addVote, alookup, h]
  | cons p rest ih =>
    obtain ⟨d₀, v₀⟩ := p
    by_cases hd : d₀ = d
    · subst hd
      rw [show addVote ((d₀, v₀) :: rest) d₀ v = (d₀, v₀ + v) :: rest by
        simp [addVote], alookup_cons_ne _ _ h, alookup_cons_ne _ _ h]
    · rw [show addVote ((d₀, v₀) :: rest) d v =
        (d₀, v₀) :: addVote rest d v by simp [addVote, hd]]
      by_cases hd' : d₀ = d'
      · subst hd'
        rw [alookup_cons_self, alookup_cons_self]
      · rw [alookup_cons_ne _ _ hd', alookup_cons_ne _ _ hd', ih]

theorem tally_step (acc : List (Nat × Int)) (a : AccountData) (d : Nat) :
    votesIn (tallyStep acc a) d =
    votesIn acc d + (if contributesTo d a then a.balance else 0) := by
  unfold tallyStep votesIn
  cases hdest : a.inflationDest with
  | none => simp [contributesTo, hdest]
  | some d' =>
    show (alookup (if voteFloor ≤ a.balance then addVote acc d' a.balance
      else acc) d).getD 0 =
      (alookup acc d).getD 0 + if contributesTo d a then a.balance else 0
    by_cases hfl : voteFloor ≤ a.balance
    · by_cases hd : d' = d
      · subst hd
        rw [if_pos hfl, alookup_addVote_self]
        simp [contributesTo, hdest, hfl]
      · rw [if_pos hfl, alookup_addVote_ne _ _ hd]
        simp [contributesTo, hdest, hd]
    · rw [if_neg hfl]
      simp [contributesTo, hdest, hfl]

theorem tally_spec_general (l : List AccountData) : ∀ (acc : List (Nat × Int))
    (d : Nat), votesIn (l.foldl tallyStep acc) d =
    votesIn acc d + ((l.filter (contributesTo d)).map (·.balance)).sum := by
  induction l with
  | nil => simp
  | cons a rest ih =>
    intro acc d
    rw [List.foldl_cons, ih, List.filter_cons]
    by_cases hc : contributesTo d a
    · rw [if_pos (by simpa using hc)]
      rw [tally_step, if_pos hc]
      simp only [List.map_cons, List.sum_cons]
      ring
    · rw [if_neg (by simpa using hc)]
      rw [tally_step, if_neg hc]
      simp

/-- The tally of a destination is exactly the sum of the balances of the
accounts that name it and meet the participation floor. -/
theorem tally_spec (l : List AccountData) (d : Nat) :
    votesIn (tallyAccounts l) d =
    ((l.filter (contributesTo d)).map (·.balance)).sum := by
  unfold tallyAccounts
  rw [tally_spec_general]
  simp [votesIn, alookup]

theorem resolve_eq_resolveNC {c : Chain} (hcons : cacheConsistent c)
    (k : LedgerKey) : resolve c k = resolveNC c k := by
  unfold resolve resolveNC
  have hroot : rootResolve c k = rootResolve { c with cache := [] } k := by
    rw [rootResolve_of_consistent hcons]
    unfold rootResolve
    rw [show alookup ({ c with cache := [] } : Chain).cache k = none from rfl]
  have hgen : ∀ fs : List Frame,
      resolveFrom c fs k = resolveFrom { c with cache := [] } fs k := by
    intro fs
    induction fs with
    | nil => exact hroot
    | cons f rest ih =>
      show (match alookup f.stage k with
        | some r => r
        | none => resolveFrom c rest k) =
        (match alookup f.stage k with
        | some r => r
        | none => resolveFrom { c with cache := [] } rest k)
      cases alookup f.stage k with
      | some r => rfl
      | none => exact ih
  exact hgen c.frames

theorem except_bind_error {α β : Type} (g : α → Except LtxError β) :
    (Except.error LtxError.InvalidState >>= g) =
    Except.error LtxError.InvalidState := rfl

theorem setFrame_frames (c : Chain) (i : Nat) (f : Frame) :
    (setFrame c i f).frames = c.frames.set i f := rfl

theorem except_bind_ok {α β : Type} (a : α) (g : α → Except LtxError β) :
    (Except.ok a >>= g) = g a := rfl

/-! ## Claim theorems -/

/-- C7: each of create, erase, load, loadWithoutRecord, loadHeader,
queryInflationWinners, loadAllOffers, loadBestOffer and
loadOffersByAccountAndAsset fails with `InvalidState` when invoked on a
frame that is sealed or that currently has an active child frame (a frame
with a smaller index in the chain), returning the error without producing
any new chain state, so the frame's staged delta is unchanged. -/
theorem create_ops_invalid_on_sealed_or_child (c : Chain) (i : Nat) (f : Frame)
    (e : LedgerEntry) (k : LedgerKey) (acct asset buying selling : Nat)
    (maxWinners : Nat) (minBalance : Int)
    (hf : c.frames[i]? = some f) (hbad : i ≠ 0 ∨ f.frameSealed = true) :
    create c i e = .error .InvalidState ∧
    eraseKey c i k = .error .InvalidState ∧
    load c i k = .error .InvalidState ∧
    loadWithoutRecord c i k = .error .InvalidState ∧
    loadHeader c i = .error .InvalidState ∧
    queryInflationWinners c i maxWinners minBalance = .error .InvalidState ∧
    loadAllOffers c i = .error .InvalidState ∧
    loadBestOffer c i buying selling = .error .InvalidState ∧
    loadOffersByAccountAndAsset c i acct asset = .error .InvalidState := by
  have hoc : opCheck c i = .error .InvalidState := by
    unfold opCheck
    rw [hf]
    rcases hbad with h | h
    · simp [h]
    · simp [h]
  refine ⟨?_, ?_, ?_, ?_, ?_, ?_, ?_, ?_, ?_⟩
  · unfold create
    rw [hoc]
    exact except_bind_error _
  · unfold eraseKey
    rw [hoc]
    exact except_bind_error _
  · unfold load
    rw [hoc]
    exact except_bind_error _
  · unfold loadWithoutRecord
    rw [hoc]
    exact except_bind_error _
  · unfold loadHeader
    rw [hoc]
    exact except_bind_error _
  · unfold queryInflationWinners
    rw [hoc]
    exact except_bind_error _
  · unfold loadAllOffers
    rw [hoc]
    exact except_bind_error _
  · unfold loadBestOffer
    rw [hoc]
    exact except_bind_error _
  · unfold loadOffersByAccountAndAsset
    rw [hoc]
    exact except_bind_error _

theorem create_ops_invalid_witness :
    (create sealedChain 0 (accEntry 1 5 none) = .error .InvalidState ∧
     eraseKey sealedChain 0 (.account 1) = .error .InvalidState ∧
     load sealedChain 0 (.account 1) = .error .InvalidState ∧
     loadWithoutRecord sealedChain 0 (.account 1) = .error .InvalidState ∧
     loadHeader sealedChain 0 = .error .InvalidState ∧
     queryInflationWinners sealedChain 0 1 1 = .error .InvalidState ∧
     loadAllOffers sealedChain 0 = .error .InvalidState ∧
     loadBestOffer sealedChain 0 1 2 = .error .InvalidState ∧
     loadOffersByAccountAndAsset sealedChain 0 1 2 = .error .InvalidState) ∧
    (create childChain 1 (accEntry 1 5 none) = .error .InvalidState ∧
     eraseKey childChain 1 (.account 1) = .error .InvalidState ∧
     load childChain 1 (.account 1) = .error .InvalidState ∧
     loadWithoutRecord childChain 1 (.account 1) = .error .InvalidState ∧
     loadHeader childChain 1 = .error .InvalidState ∧
     queryInflationWinners childChain 1 1 1 = .error .InvalidState ∧
     loadAllOffers childChain 1 = .error .InvalidState ∧
     loadBestOffer childChain 1 1 2 = .error .InvalidState ∧
     loadOffersByAccountAndAsset childChain 1 1 2 = .error .InvalidState) :=
  ⟨create_ops_invalid_on_sealed_or_child sealedChain 0 _ _ _ 1 2 1 2 1 1
      rfl (Or.inr rfl),
   create_ops_invalid_on_sealed_or_child childChain 1 _ _ _ 1 2 1 2 1 1
      rfl (Or.inl (by decide))⟩

/-- C10: `unsealHeader(f)` fails with a runtime error when the frame is not
sealed, and when the frame's header handle is currently active — including
re-entrantly, from within another unsealHeader callback, whose in-flight
state is `unsealHeaderBegin`; on a sealed frame with an inactive header it
runs `f` on the ledger header, deactivates the header on completion, and can
therefore be called repeatedly on the same sealed frame. -/
theorem unsealHeader_spec (c : Chain) (f : Frame) (rest : List Frame)
    (g : LedgerHeader → LedgerHeader) (hf : c.frames = f :: rest) :
    (f.frameSealed = false → unsealHeader c 0 g = .error .InvalidState) ∧
    (∀ hid, f.headerActive = some hid →
      unsealHeader c 0 g = .error .InvalidState) ∧
    (f.frameSealed = true → f.headerActive = none →
      ∃ c₁, unsealHeaderBegin c 0 = .ok (c₁, f.header) ∧
        unsealHeader c₁ 0 g = .error .InvalidState ∧
        ∃ c₂, unsealHeader c 0 g = .ok c₂ ∧
          c₂ = unsealHeaderEnd c₁ 0 (g f.header) ∧
          ∃ c₃, unsealHeader c₂ 0 g = .ok c₃) := by
  refine ⟨?_, ?_, ?_⟩
  · intro h
    have hbeg : unsealHeaderBegin c 0 = .error .InvalidState := by
      unfold unsealHeaderBegin
      rw [hf]
      simp [h]
    unfold unsealHeader
    rw [hbeg]
    exact except_bind_error _
  · intro hid h
    have hbeg : unsealHeaderBegin c 0 = .error .InvalidState := by
      unfold unsealHeaderBegin
      rw [hf]
      by_cases hs : f.frameSealed
      · simp [hs, h]
      · simp [hs]
    unfold unsealHeader
    rw [hbeg]
    exact except_bind_error _
  · intro hs hh
    obtain ⟨st, se, hd, ak, ha, ni⟩ := f
    simp only at hs hh
    subst hs
    subst hh
    refine ⟨setFrame c 0 ⟨st, true, hd, ak, some ni, ni + 1⟩, ?_, ?_, ?_⟩
    · unfold unsealHeaderBegin
      rw [hf]
      simp only [List.getElem?_cons_zero]
      rfl
    · have hfr : (setFrame c 0 ⟨st, true, hd, ak, some ni, ni + 1⟩).frames =
          (⟨st, true, hd, ak, some ni, ni + 1⟩ : Frame) :: rest := by
        unfold setFrame
        rw [hf]
        rfl
      have hbeg : unsealHeaderBegin
          (setFrame c 0 ⟨st, true, hd, ak, some ni, ni + 1⟩) 0 =
          .error .InvalidState := by
        unfold unsealHeaderBegin
        rw [hfr]
        simp only [List.getElem?_cons_zero]
        rfl
      unfold unsealHeader
      rw [hbeg]
      exact except_bind_error _
    · have hbeg : unsealHeaderBegin c 0 =
          .ok (setFrame c 0 ⟨st, true, hd, ak, some ni, ni + 1⟩, hd) := by
        unfold unsealHeaderBegin
        rw [hf]
        simp only [List.getElem?_cons_zero]
        rfl
      refine ⟨unsealHeaderEnd
        (setFrame c 0 ⟨st, true, hd, ak, some ni, ni + 1⟩) 0 (g hd),
        ?_, rfl, ?_⟩
      · unfold unsealHeader
        rw [hbeg]
        rfl
      · have hfr : (setFrame c 0 ⟨st, true, hd, ak, some ni, ni + 1⟩).frames =
            (⟨st, true, hd, ak, some ni, ni + 1⟩ : Frame) :: rest := by
          unfold setFrame
          rw [hf]
          rfl
        have hfr₂ : (unsealHeaderEnd
            (setFrame c 0 ⟨st, true, hd, ak, some ni, ni + 1⟩) 0
            (g hd)).frames =
            (⟨st, true, g hd, ak, none, ni + 1⟩ : Frame) :: rest := by
          unfold unsealHeaderEnd
          rw [hfr]
          simp only [List.getElem?_cons_zero]
          rw [setFrame_frames, setFrame_frames, hf]
          rfl
        have hbeg₂ : unsealHeaderBegin (unsealHeaderEnd
            (setFrame c 0 ⟨st, true, hd, ak, some ni, ni + 1⟩) 0 (g hd)) 0 =
            .ok (setFrame (unsealHeaderEnd
              (setFrame c 0 ⟨st, true, hd, ak, some ni, ni + 1⟩) 0 (g hd)) 0
              ⟨st, true, g hd, ak, some (ni + 1), ni + 1 + 1⟩, g hd) := by
          unfold unsealHeaderBegin
          rw [hfr₂]
          simp only [List.getElem?_cons_zero]
          rfl
        refine ⟨unsealHeaderEnd (setFrame (unsealHeaderEnd
          (setFrame c 0 ⟨st, true, hd, ak, some ni, ni + 1⟩) 0 (g hd)) 0
          ⟨st, true, g hd, ak, some (ni + 1), ni + 1 + 1⟩) 0 (g (g hd)), ?_⟩
        unfold unsealHeader
        rw [hbeg₂]
        rfl

theorem unsealHeader_witness :
    (sealedChain.frames.head?.all (fun f => f.frameSealed) ∧
      ∃ c₁, unsealHeaderBegin sealedChain 0 = .ok (c₁, hdr0) ∧
        unsealHeader c₁ 0 id = .error .InvalidState ∧
        ∃ c₂, unsealHeader sealedChain 0 id = .ok c₂ ∧
          c₂ = unsealHeaderEnd c₁ 0 (id hdr0) ∧
          ∃ c₃, unsealHeader c₂ 0 id = .ok c₃) ∧
    unsealHeader childChain 0 id = .error .InvalidState := by
  constructor
  · constructor
    · decide
    · exact (unsealHeader_spec sealedChain _ [] id rfl).2.2 rfl rfl
  · exact (unsealHeader_spec childChain _ [newFrame hdr0] id rfl).1 rfl

theorem afterHeaderLoad_push (fs : List Frame)
    (st : List (LedgerKey × LedgerEntry))
    (ca : List (LedgerKey × Option LedgerEntry)) (cz : Nat)
    (rh h : LedgerHeader) :
    afterHeaderLoad ⟨newFrame h :: fs, st, ca, cz, rh⟩ =
    ⟨(⟨[], false, h, [], some 0, 1⟩ : Frame) :: fs, st, ca, cz, rh⟩ := by
  unfold afterHeaderLoad loadHeader opCheck newFrame
  simp only [List.getElem?_cons_zero]
  rfl

theorem afterSourceLoad_shape (f : Frame) (fs : List Frame)
    (st : List (LedgerKey × LedgerEntry))
    (ca : List (LedgerKey × Option LedgerEntry)) (cz : Nat)
    (rh : LedgerHeader) (sid : Nat) :
    ∃ f', afterSourceLoad ⟨f :: fs, st, ca, cz, rh⟩ sid =
      ⟨f' :: fs, st, ca, cz, rh⟩ := by
  unfold afterSourceLoad load opCheck
  simp only [List.getElem?_cons_zero]
  by_cases hs : f.frameSealed
  · refine ⟨f, ?_⟩
    simp [hs, except_bind_error]
  · by_cases hk : keyActive ⟨f :: fs, st, ca, cz, rh⟩ (LedgerKey.account sid)
    · refine ⟨f, ?_⟩
      simp [hs, hk, except_bind_ok, except_bind_error]
    · cases hr : resolve ⟨f :: fs, st, ca, cz, rh⟩ (LedgerKey.account sid) with
      | none =>
        refine ⟨f, ?_⟩
        simp [hs, hk, hr, except_bind_ok]
      | some e =>
        refine ⟨⟨(LedgerKey.account sid, some e) :: f.stage, f.frameSealed,
          f.header, (f.nextId, LedgerKey.account sid) :: f.activeKeys,
          f.headerActive, f.nextId + 1⟩, ?_⟩
        simp [hs, hk, hr, except_bind_ok, setFrame]

theorem afterRollback_pop (f : Frame) (fs : List Frame)
    (st : List (LedgerKey × LedgerEntry))
    (ca : List (LedgerKey × Option LedgerEntry)) (cz : Nat)
    (rh : LedgerHeader) :
    afterRollback ⟨f :: fs, st, ca, cz, rh⟩ = ⟨fs, st, ca, cz, rh⟩ := by
  unfold afterRollback rollback
  simp

/-- C9: `OperationFrame::checkValid` performs all its ledger reads (header
load, source-account load) inside a child transaction frame opened over the
outer transaction and never commits it, so the ledger state visible through
the outer transaction is left exactly as it was, for every chain and every
source account. -/
theorem checkValid_preserves_outer (c : Chain) (sid : Nat) :
    checkValidLedgerAccess c sid = c := by
  obtain ⟨cf, cst, cca, ccz, crh⟩ := c
  unfold checkValidLedgerAccess
  cases cf with
  | nil =>
    rw [show addChild ⟨[], cst, cca, ccz, crh⟩ =
      .ok ⟨[newFrame crh], cst, cca, ccz, crh⟩ from rfl]
    show afterRollback (afterSourceLoad (afterHeaderLoad
      ⟨newFrame crh :: [], cst, cca, ccz, crh⟩) sid) =
      ⟨[], cst, cca, ccz, crh⟩
    rw [afterHeaderLoad_push]
    obtain ⟨f', hf'⟩ := afterSourceLoad_shape
      ⟨[], false, crh, [], some 0, 1⟩ [] cst cca ccz crh sid
    rw [hf', afterRollback_pop]
  | cons f rest =>
    by_cases hs : f.frameSealed
    · rw [show addChild ⟨f :: rest, cst, cca, ccz, crh⟩ =
        .error .InvalidState by unfold addChild; simp [hs]]
    · rw [show addChild ⟨f :: rest, cst, cca, ccz, crh⟩ =
        .ok ⟨newFrame f.header :: f :: rest, cst, cca, ccz, crh⟩ by
        unfold addChild; simp [hs]]
      show afterRollback (afterSourceLoad (afterHeaderLoad
        ⟨newFrame f.header :: f :: rest, cst, cca, ccz, crh⟩) sid) =
        ⟨f :: rest, cst, cca, ccz, crh⟩
      rw [afterHeaderLoad_push]
      obtain ⟨f', hf'⟩ := afterSourceLoad_shape
        ⟨[], false, f.header, [], some 0, 1⟩ (f :: rest) cst cca ccz crh sid
      rw [hf', afterRollback_pop]

/-! ## Child-frame lemmas -/

theorem addChild_ok (c : Chain)
    (hopen : ∀ f, c.frames.head? = some f → f.frameSealed = false) :
    addChild c = .ok { c with frames := newFrame (innerHeader c) :: c.frames }
    := by
  obtain ⟨cf, cst, cca, ccz, crh⟩ := c
  cases cf with
  | nil => rfl
  | cons f rest =>
    have := hopen f rfl
    unfold addChild innerHeader
    simp [this]

theorem resolve_push (c : Chain) (h : LedgerHeader) (k : LedgerKey) :
    resolve { c with frames := newFrame h :: c.frames } k = resolve c k := by
  unfold resolve
  show (match alookup ([] : List (LedgerKey × Option LedgerEntry)) k with
    | some r => r
    | none => resolveFrom { c with frames := newFrame h :: c.frames }
        c.frames k) = resolveFrom c c.frames k
  show resolveFrom { c with frames := newFrame h :: c.frames } c.frames k =
    resolveFrom c c.frames k
  apply resolveFrom_congr_root
  · rfl
  · rfl

theorem keyActive_push (c : Chain) (h : LedgerHeader) (k : LedgerKey) :
    keyActive { c with frames := newFrame h :: c.frames } k = keyActive c k
    := by
  unfold keyActive newFrame
  simp

theorem rollback_push (c : Chain) (f : Frame) :
    rollback { c with frames := f :: c.frames } 0 = .ok c := by
  unfold rollback
  simp

theorem resolve_head_stage {c : Chain} {f : Frame} {rest : List Frame}
    {k : LedgerKey} {r : Option LedgerEntry} (hf : c.frames = f :: rest)
    (hs : alookup f.stage k = some r) : resolve c k = r := by
  unfold resolve
  rw [hf]
  show (match alookup f.stage k with
    | some r => r
    | none => resolveFrom c rest k) = r
  rw [hs]

theorem commit_zero_ok (c : Chain) (f : Frame) (rest : List Frame)
    (hf : c.frames = f :: rest) : ∃ c₂, commit c 0 = .ok c₂ := by
  unfold commit
  rw [hf]
  cases rest <;> simp

theorem create_push_shape (c : Chain) (e : LedgerEntry) (h : LedgerHeader)
    (hnone : resolve c (ledgerEntryKey e) = none) :
    create { c with frames := newFrame h :: c.frames } 0 e =
      .ok ({ c with frames :=
        (⟨[(ledgerEntryKey e, some e)], false, h, [(0, ledgerEntryKey e)],
          none, 1⟩ : Frame) :: c.frames }, 0) := by
  have hres : resolve { c with frames := newFrame h :: c.frames }
      (ledgerEntryKey e) = none := by
    rw [resolve_push]
    exact hnone
  unfold create opCheck
  simp only [newFrame] at hres ⊢
  simp [setFrame, hres]

theorem load_push_shape (c : Chain) (k : LedgerKey) (e₀ : LedgerEntry)
    (h : LedgerHeader) (hsome : resolve c k = some e₀)
    (hact : keyActive c k = false) :
    load { c with frames := newFrame h :: c.frames } 0 k =
      .ok ({ c with frames :=
        (⟨[(k, some e₀)], false, h, [(0, k)], none, 1⟩ : Frame) :: c.frames },
        some 0) := by
  have hres : resolve { c with frames := newFrame h :: c.frames } k =
      some e₀ := by
    rw [resolve_push]
    exact hsome
  have hka : keyActive { c with frames := newFrame h :: c.frames } k =
      false := by
    rw [keyActive_push]
    exact hact
  unfold load opCheck
  simp only [newFrame] at hres hka ⊢
  simp [setFrame, hres, hka]

theorem handleWrite_shape (c : Chain) (k : LedgerKey) (e₀ e' : LedgerEntry)
    (h : LedgerHeader) (he : ledgerEntryKey e' = k) :
    handleWrite { c with frames :=
      (⟨[(k, some e₀)], false, h, [(0, k)], none, 1⟩ : Frame) :: c.frames }
      0 0 e' =
    .ok { c with frames :=
      (⟨[(k, some e'), (k, some e₀)], false, h, [(0, k)], none, 1⟩ : Frame)
        :: c.frames } := by
  unfold handleWrite opCheck
  simp [setFrame, he, List.find?_cons, except_bind_ok]
  rfl

theorem erase_push_shape (c : Chain) (k : LedgerKey) (e₀ : LedgerEntry)
    (h : LedgerHeader) (hsome : resolve c k = some e₀) :
    eraseKey { c with frames := newFrame h :: c.frames } 0 k =
      .ok { c with frames :=
        (⟨[(k, none)], false, h, [], none, 0⟩ : Frame) :: c.frames } := by
  have hres : resolve { c with frames := newFrame h :: c.frames } k =
      some e₀ := by
    rw [resolve_push]
    exact hsome
  unfold eraseKey opCheck
  simp only [newFrame] at hres ⊢
  simp [setFrame, hres]

/-- C1: for every entry change staged in a child frame — a create, a modify
through a loaded handle, or an erase — committing the child makes the parent
read exactly the committed value (the created entry, the modified entry, or
no live value for an erase), while rolling the child back instead restores
the parent chain exactly to the state it had before the child was opened, so
a read returns the pre-change value. -/
theorem commit_rollback_round_trip (c : Chain) (e e' e₀ : LedgerEntry)
    (hopen : ∀ f, c.frames.head? = some f → f.frameSealed = false)
    (hcons : cacheConsistent c) :
    ((resolve c (ledgerEntryKey e) = none) →
      ∃ c₁ c₂ hid, addChild c = .ok c₁ ∧ create c₁ 0 e = .ok (c₂, hid) ∧
        (∃ c₃, commit c₂ 0 = .ok c₃ ∧
          resolve c₃ (ledgerEntryKey e) = some e) ∧
        rollback c₂ 0 = .ok c) ∧
    ((resolve c (ledgerEntryKey e') = some e₀) →
      keyActive c (ledgerEntryKey e') = false →
      ∃ c₁ c₂ hid c₃, addChild c = .ok c₁ ∧
        load c₁ 0 (ledgerEntryKey e') = .ok (c₂, some hid) ∧
        handleWrite c₂ 0 hid e' = .ok c₃ ∧
        (∃ c₄, commit c₃ 0 = .ok c₄ ∧
          resolve c₄ (ledgerEntryKey e') = some e') ∧
        rollback c₃ 0 = .ok c) ∧
    (∀ k, resolve c k = some e₀ →
      ∃ c₁ c₂, addChild c = .ok c₁ ∧ eraseKey c₁ 0 k = .ok c₂ ∧
        (∃ c₃, commit c₂ 0 = .ok c₃ ∧ resolve c₃ k = none) ∧
        rollback c₂ 0 = .ok c) := by
  have hadd := addChild_ok c hopen
  refine ⟨?_, ?_, ?_⟩
  · intro hnone
    have hcr := create_push_shape c e (innerHeader c) hnone
    obtain ⟨c₃, hc₃⟩ := commit_zero_ok { c with frames :=
      (⟨[(ledgerEntryKey e, some e)], false, innerHeader c,
        [(0, ledgerEntryKey e)], none, 1⟩ : Frame) :: c.frames } _
      c.frames rfl
    have hcons₂ : cacheConsistent { c with frames :=
        (⟨[(ledgerEntryKey e, some e)], false, innerHeader c,
          [(0, ledgerEntryKey e)], none, 1⟩ : Frame) :: c.frames } := hcons
    refine ⟨_, _, 0, hadd, hcr, ⟨c₃, hc₃, ?_⟩, rollback_push c _⟩
    rw [resolve_commit hcons₂ hc₃]
    exact resolve_head_stage rfl (alookup_cons_self _ _ _)
  · intro hsome hact
    have hld := load_push_shape c (ledgerEntryKey e') e₀ (innerHeader c)
      hsome hact
    have hw := handleWrite_shape c (ledgerEntryKey e') e₀ e' (innerHeader c)
      rfl
    obtain ⟨c₄, hc₄⟩ := commit_zero_ok { c with frames :=
      (⟨[(ledgerEntryKey e', some e'), (ledgerEntryKey e', some e₀)], false,
        innerHeader c, [(0, ledgerEntryKey e')], none, 1⟩ : Frame)
        :: c.frames } _ c.frames rfl
    have hcons₂ : cacheConsistent { c with frames :=
        (⟨[(ledgerEntryKey e', some e'), (ledgerEntryKey e', some e₀)], false,
          innerHeader c, [(0, ledgerEntryKey e')], none, 1⟩ : Frame)
          :: c.frames } := hcons
    refine ⟨_, _, 0, _, hadd, hld, hw, ⟨c₄, hc₄, ?_⟩, rollback_push c _⟩
    rw [resolve_commit hcons₂ hc₄]
    exact resolve_head_stage rfl (alookup_cons_self _ _ _)
  · intro k hsome
    have her := erase_push_shape c k e₀ (innerHeader c) hsome
    obtain ⟨c₃, hc₃⟩ := commit_zero_ok { c with frames :=
      (⟨[(k, none)], false, innerHeader c, [], none, 0⟩ : Frame)
        :: c.frames } _ c.frames rfl
    have hcons₂ : cacheConsistent { c with frames :=
        (⟨[(k, none)], false, innerHeader c, [], none, 0⟩ : Frame)
          :: c.frames } := hcons
    refine ⟨_, _, hadd, her, ⟨c₃, hc₃, ?_⟩, rollback_push c _⟩
    rw [resolve_commit hcons₂ hc₃]
    exact resolve_head_stage rfl (alookup_cons_self _ _ _)

theorem commit_rollback_witness :
    (∃ c₁ c₂ hid, addChild roundTripChain = .ok c₁ ∧
      create c₁ 0 (accEntry 2 5 none) = .ok (c₂, hid) ∧
      (∃ c₃, commit c₂ 0 = .ok c₃ ∧
        resolve c₃ (ledgerEntryKey (accEntry 2 5 none)) =
          some (accEntry 2 5 none)) ∧
      rollback c₂ 0 = .ok roundTripChain) ∧
    (∃ c₁ c₂ hid c₃, addChild roundTripChain = .ok c₁ ∧
      load c₁ 0 (ledgerEntryKey (accEntry 1 7 none)) = .ok (c₂, some hid) ∧
      handleWrite c₂ 0 hid (accEntry 1 7 none) = .ok c₃ ∧
      (∃ c₄, commit c₃ 0 = .ok c₄ ∧
        resolve c₄ (ledgerEntryKey (accEntry 1 7 none)) =
          some (accEntry 1 7 none)) ∧
      rollback c₃ 0 = .ok roundTripChain) ∧
    (∃ c₁ c₂, addChild roundTripChain = .ok c₁ ∧
      eraseKey c₁ 0 (LedgerKey.account 1) = .ok c₂ ∧
      (∃ c₃, commit c₂ 0 = .ok c₃ ∧
        resolve c₃ (LedgerKey.account 1) = none) ∧
      rollback c₂ 0 = .ok roundTripChain) := by
  have h := commit_rollback_round_trip roundTripChain (accEntry 2 5 none)
    (accEntry 1 7 none) (accEntry 1 5 none)
    (fun f hf => by injection hf with h1; rw [← h1])
    ⟨fun _ => rfl, fun k r hk => Option.noConfusion hk⟩
  exact ⟨h.1 rfl, h.2.1 rfl rfl, h.2.2 (LedgerKey.account 1) rfl⟩

/-- C6 counterexample: the claim "if K does not resolve to a live value,
create succeeds ... and the frame's delta for K is {current: entry,
previous: null}" fails on the resurrection path.  A parent creates the
entry; its child erases the key (so K no longer resolves to a live value)
and then re-creates it: create succeeds, but the child's delta carries the
parent's value as `previous`, not null (spec 8's resurrection clause). -/
theorem create_delta_prev_counterexample :
    create ⟨[newFrame hdr0], [], [], 0, hdr0⟩ 0 (accEntry 1 5 none) =
      .ok (resChainP, 0) ∧
    addChild resChainP =
      .ok ⟨[newFrame hdr0,
        ⟨[(LedgerKey.account 1, some (accEntry 1 5 none))], false, hdr0,
          [(0, LedgerKey.account 1)], none, 1⟩], [], [], 0, hdr0⟩ ∧
    eraseKey ⟨[newFrame hdr0,
        ⟨[(LedgerKey.account 1, some (accEntry 1 5 none))], false, hdr0,
          [(0, LedgerKey.account 1)], none, 1⟩], [], [], 0, hdr0⟩ 0
      (LedgerKey.account 1) = .ok resChainErased ∧
    resolve resChainErased (LedgerKey.account 1) = none ∧
    create resChainErased 0 (accEntry 1 7 none) =
      .ok (resChainRecreated, 0) ∧
    getDelta resChainRecreated 0 =
      .ok (⟨[⟨[(LedgerKey.account 1, some (accEntry 1 7 none)),
          (LedgerKey.account 1, none)], true, hdr0,
          [(0, LedgerKey.account 1)], none, 1⟩,
        ⟨[(LedgerKey.account 1, some (accEntry 1 5 none))], false, hdr0,
          [(0, LedgerKey.account 1)], none, 1⟩], [], [], 0, hdr0⟩,
        ⟨[(LedgerKey.account 1,
          ⟨some (accEntry 1 7 none), some (accEntry 1 5 none)⟩)],
          hdr0, hdr0⟩) := by
  refine ⟨?_, ?_, ?_, ?_, ?_, ?_⟩ <;> rfl

/-- C6 (amended): `create(entry)` at any nesting depth fails with
`DuplicateKey` exactly when the key resolves to a live (non-erased) value
through the frame itself or its ancestor chain.  When the key does not
resolve to a live value — including when it exists in a grandparent but was
erased in an intermediate frame — create succeeds and stages a created
record, and the frame's delta for the key is {current: entry, previous: the
value the parent chain resolves}, where previous is null whenever the
frame's own stage holds no record for the key (it is non-null only on the
erase-then-recreate path within the same frame, spec 8's resurrection). -/
theorem create_duplicate_and_delta (c : Chain) (e : LedgerEntry) (f : Frame)
    (rest : List Frame) (hf : c.frames = f :: rest)
    (hopen : f.frameSealed = false) :
    ((resolve c (ledgerEntryKey e)).isSome →
      create c 0 e = .error .DuplicateKey) ∧
    (resolve c (ledgerEntryKey e) = none →
      ∃ c', create c 0 e = .ok (c', f.nextId) ∧
        (∃ f', c'.frames = f' :: rest ∧
          alookup f'.stage (ledgerEntryKey e) = some (some e)) ∧
        (∃ c'' d, getDelta c' 0 = .ok (c'', d) ∧
          alookup d.entry (ledgerEntryKey e) =
            some ⟨some e, parentResolve c (ledgerEntryKey e)⟩ ∧
          (alookup f.stage (ledgerEntryKey e) = none →
            parentResolve c (ledgerEntryKey e) = none))) := by
  constructor
  · intro hs
    unfold create opCheck
    rw [hf]
    simp only [List.getElem?_cons_zero]
    simp [hopen, hs, except_bind_ok]
    rfl
  · intro hn
    have hcr : create c 0 e = .ok (setFrame c 0
        ⟨(ledgerEntryKey e, some e) :: f.stage, f.frameSealed, f.header,
          (f.nextId, ledgerEntryKey e) :: f.activeKeys, f.headerActive,
          f.nextId + 1⟩, f.nextId) := by
      unfold create opCheck
      rw [hf]
      simp only [List.getElem?_cons_zero]
      simp [hopen, hn, except_bind_ok]
    have hfr : (setFrame c 0
        ⟨(ledgerEntryKey e, some e) :: f.stage, f.frameSealed, f.header,
          (f.nextId, ledgerEntryKey e) :: f.activeKeys, f.headerActive,
          f.nextId + 1⟩).frames =
        (⟨(ledgerEntryKey e, some e) :: f.stage, f.frameSealed, f.header,
          (f.nextId, ledgerEntryKey e) :: f.activeKeys, f.headerActive,
          f.nextId + 1⟩ : Frame) :: rest := by
      rw [setFrame_frames, hf]
      rfl
    refine ⟨_, hcr, ⟨_, hfr, alookup_cons_self _ _ _⟩, ?_⟩
    have hgd : getDelta (setFrame c 0
        ⟨(ledgerEntryKey e, some e) :: f.stage, f.frameSealed, f.header,
          (f.nextId, ledgerEntryKey e) :: f.activeKeys, f.headerActive,
          f.nextId + 1⟩) 0 = .ok (setFrame (setFrame c 0
        ⟨(ledgerEntryKey e, some e) :: f.stage, f.frameSealed, f.header,
          (f.nextId, ledgerEntryKey e) :: f.activeKeys, f.headerActive,
          f.nextId + 1⟩) 0
        ⟨(ledgerEntryKey e, some e) :: f.stage, true, f.header,
          (f.nextId, ledgerEntryKey e) :: f.activeKeys, f.headerActive,
          f.nextId + 1⟩,
        ⟨deltaEntries ((ledgerEntryKey e, some e) :: f.stage)
          (parentResolve (setFrame c 0
            ⟨(ledgerEntryKey e, some e) :: f.stage, f.frameSealed, f.header,
              (f.nextId, ledgerEntryKey e) :: f.activeKeys, f.headerActive,
              f.nextId + 1⟩)),
          f.header,
          parentHeader (setFrame c 0
            ⟨(ledgerEntryKey e, some e) :: f.stage, f.frameSealed, f.header,
              (f.nextId, ledgerEntryKey e) :: f.activeKeys, f.headerActive,
              f.nextId + 1⟩)⟩) := by
      unfold getDelta opCheck
      rw [hfr]
      simp only [List.getElem?_cons_zero]
      simp [hopen, except_bind_ok]
    refine ⟨_, _, hgd, ?_, ?_⟩
    · rw [alookup_deltaEntries]
      have hpr : parentResolve (setFrame c 0
          ⟨(ledgerEntryKey e, some e) :: f.stage, f.frameSealed, f.header,
            (f.nextId, ledgerEntryKey e) :: f.activeKeys, f.headerActive,
            f.nextId + 1⟩) = parentResolve c := by
        funext k
        unfold parentResolve
        rw [hfr, hf]
        show resolveFrom _ rest k = resolveFrom c rest k
        apply resolveFrom_congr_root
        · rfl
        · rfl
      rw [hpr]
      unfold deltaAt
      rw [alookup_cons_self]
    · intro hnostage
      unfold parentResolve
      rw [hf]
      unfold resolve at hn
      rw [hf] at hn
      revert hn
      show (match alookup f.stage (ledgerEntryKey e) with
        | some r => r
        | none => resolveFrom c rest (ledgerEntryKey e)) = none →
        resolveFrom c rest (ledgerEntryKey e) = none
      rw [hnostage]
      exact id

theorem create_duplicate_and_delta_witness :
    (create resChainP 0 (accEntry 1 9 none) = .error .DuplicateKey) ∧
    (∃ c', create roundTripChain 0 (accEntry 2 5 none) = .ok (c', 0) ∧
      (∃ f', c'.frames = f' :: [] ∧
        alookup f'.stage (ledgerEntryKey (accEntry 2 5 none)) =
          some (some (accEntry 2 5 none))) ∧
      (∃ c'' d, getDelta c' 0 = .ok (c'', d) ∧
        alookup d.entry (ledgerEntryKey (accEntry 2 5 none)) =
          some ⟨some (accEntry 2 5 none),
            parentResolve roundTripChain (ledgerEntryKey (accEntry 2 5 none))⟩
        ∧ (alookup (roundTripChain.frames.headD (newFrame hdr0)).stage
            (ledgerEntryKey (accEntry 2 5 none)) = none →
          parentResolve roundTripChain (ledgerEntryKey (accEntry 2 5 none)) =
            none))) :=
  ⟨(create_duplicate_and_delta resChainP (accEntry 1 9 none) _ [] rfl
      rfl).1 (by decide),
   (create_duplicate_and_delta roundTripChain (accEntry 2 5 none) _ [] rfl
      rfl).2 (by decide)⟩

theorem loadBestOffer_eval (c : Chain) (f : Frame) (rest : List Frame)
    (hf : c.frames = f :: rest) (hopen : f.frameSealed = false)
    (b s : Nat) : loadBestOffer c 0 b s =
    .ok (bestOfferOf (orderBookCandidates c b s)) := by
  have hoc : opCheck c 0 = .ok f := by
    unfold opCheck
    rw [hf]
    simp [hopen]
  unfold loadBestOffer
  rw [hoc, except_bind_ok]
  rfl

/-- C4 counterexample: on two live offers for the same (buying, selling)
pair with different prices, loadBestOffer returns the offer with the
numerically LOWER price, not the higher one the claim states — exactly the
"different price" cases of the loadBestOffer test. -/
theorem loadBestOffer_price_counterexample :
    orderBookCandidates offerChain 10 20 =
      [⟨1, 1, 10, 20, 2, 1, 1⟩, ⟨1, 2, 10, 20, 1, 1, 1⟩] ∧
    loadBestOffer offerChain 0 10 20 =
      .ok (some ⟨1, 2, 10, 20, 1, 1, 1⟩) ∧
    ((1 : Int) * 1 < 2 * 1) := by
  refine ⟨?_, ?_, ?_⟩
  · rfl
  · rfl
  · decide

/-- C4 (amended): candidate offers of the order-book view for a pair are
preferred by numerically LOWER price (then by lower offer id), so of two
live offers on the same pair with different prices, loadBestOffer returns
the one with the numerically lower price. -/
theorem loadBestOffer_lower_price (c : Chain) (f : Frame) (rest : List Frame)
    (b s : Nat) (o₁ o₂ : OfferData)
    (hf : c.frames = f :: rest) (hopen : f.frameSealed = false)
    (h₁ : o₁ ∈ orderBookCandidates c b s)
    (hall : ∀ o ∈ orderBookCandidates c b s, o = o₁ ∨ o = o₂)
    (hp : o₁.priceN * o₂.priceD < o₂.priceN * o₁.priceD) :
    loadBestOffer c 0 b s = .ok (some o₁) := by
  rw [loadBestOffer_eval c f rest hf hopen]
  have hb : offBetter o₁ o₂ = true := by
    simp [offBetter, hp]
  rw [bestOfferOf_dominates hb hall h₁]

theorem loadBestOffer_lower_price_witness :
    loadBestOffer offerChain 0 10 20 =
      .ok (some ⟨1, 2, 10, 20, 1, 1, 1⟩) :=
  loadBestOffer_lower_price offerChain (newFrame hdr0) [] 10 20
    ⟨1, 2, 10, 20, 1, 1, 1⟩ ⟨1, 1, 10, 20, 2, 1, 1⟩ rfl rfl
    (by decide) (by decide) (by decide)

/-- C5: of two live offers on the same (buying, selling) pair with
identical price, loadBestOffer returns the one with the lower offer id;
and the result is unchanged for any other chain that presents the same
cache-free merged view — regardless of which nesting level holds which
offer and regardless of creation order, which the merged view does not
record. -/
theorem loadBestOffer_tie_lower_id (c : Chain) (f : Frame)
    (rest : List Frame) (b s : Nat) (o₁ o₂ : OfferData)
    (hf : c.frames = f :: rest) (hopen : f.frameSealed = false)
    (h₁ : o₁ ∈ orderBookCandidates c b s)
    (hall : ∀ o ∈ orderBookCandidates c b s, o = o₁ ∨ o = o₂)
    (hp : o₁.priceN * o₂.priceD = o₂.priceN * o₁.priceD)
    (hid : o₁.offerID < o₂.offerID) :
    loadBestOffer c 0 b s = .ok (some o₁) ∧
    (∀ c' f' rest', c'.frames = f' :: rest' → f'.frameSealed = false →
      cacheConsistent c → cacheConsistent c' →
      (∀ k, resolveNC c k = resolveNC c' k) →
      loadBestOffer c' 0 b s = .ok (some o₁)) := by
  have hb : offBetter o₁ o₂ = true := by
    simp [offBetter, hp, hid]
  constructor
  · rw [loadBestOffer_eval c f rest hf hopen]
    rw [bestOfferOf_dominates hb hall h₁]
  · intro c' f' rest' hf' hopen' hcons hcons' hview
    have hres : ∀ k, resolve c k = resolve c' k := by
      intro k
      rw [resolve_eq_resolveNC hcons, resolve_eq_resolveNC hcons']
      exact hview k
    have hmerged : mergedEntries c' = mergedEntries c :=
      (mergedEntries_ext hres).symm
    have hcand : orderBookCandidates c' b s = orderBookCandidates c b s := by
      unfold orderBookCandidates offersOf
      rw [hmerged]
    rw [loadBestOffer_eval c' f' rest' hf' hopen', hcand]
    rw [bestOfferOf_dominates hb hall h₁]

theorem loadBestOffer_tie_lower_id_witness :
    loadBestOffer offerTieChain 0 10 20 =
      .ok (some ⟨1, 1, 10, 20, 1, 1, 1⟩) ∧
    loadBestOffer offerTieSplit 0 10 20 =
      .ok (some ⟨1, 1, 10, 20, 1, 1, 1⟩) := by
  have h := loadBestOffer_tie_lower_id offerTieChain (newFrame hdr0) []
    10 20 ⟨1, 1, 10, 20, 1, 1, 1⟩ ⟨1, 2, 10, 20, 1, 1, 1⟩ rfl rfl
    (by decide) (by decide) (by decide) (by decide)
  refine ⟨h.1, h.2 offerTieSplit
    ⟨[(LedgerKey.offer 1 1, some (offEntry 1 1 10 20 1 1 1))], false, hdr0,
      [], none, 0⟩ [] rfl rfl
    ⟨fun hz => rfl, fun k r hk => Option.noConfusion hk⟩
    ⟨fun hz => by exact absurd hz (by decide),
      fun k r hk => Option.noConfusion hk⟩ ?_⟩
  intro k
  cases k with
  | account i => rfl
  | trustLine i a => rfl
  | dataItem i n => rfl
  | offer sl oid =>
    by_cases h1 : sl = 1
    · subst h1
      by_cases h2 : oid = 1
      · subst h2
        rfl
      · by_cases h3 : oid = 2
        · subst h3
          rfl
        · have h2' : ¬(1 = oid) := fun hh => h2 hh.symm
          have h3' : ¬(2 = oid) := fun hh => h3 hh.symm
          show resolveNC offerTieChain (LedgerKey.offer 1 oid) =
            resolveNC offerTieSplit (LedgerKey.offer 1 oid)
          unfold resolveNC offerTieChain offerTieSplit
          simp [resolveFrom, rootResolve, alookup, newFrame, h2', h3']
    · have h1' : ¬(1 = sl) := fun hh => h1 hh.symm
      show resolveNC offerTieChain (LedgerKey.offer sl oid) =
        resolveNC offerTieSplit (LedgerKey.offer sl oid)
      unfold resolveNC offerTieChain offerTieSplit
      simp [resolveFrom, rootResolve, alookup, newFrame, h1']

/-- C3 counterexample: per-account participation is NOT thresholded by
`minBalance`.  With minBalance = 1, an account with balance 999999999 ≥ 1
voting for destination 2 contributes nothing (the "below query minimum"
test case); and with minBalance = 2·10^9+10, two accounts whose balances
10^9+3 and 10^9+7 are each far below minBalance do contribute, producing
the winner (the "near min votes boundary" test case). -/
theorem inflation_floor_counterexample :
    accountsOf (mergedEntries lowBalanceChain) = [⟨1, 999999999, some 2⟩] ∧
    ((1 : Int) ≤ 999999999) ∧
    queryInflationWinners lowBalanceChain 0 1 1 = .ok [] ∧
    ((1000000003 : Int) < 2 * 1000000000 + 10) ∧
    ((1000000007 : Int) < 2 * 1000000000 + 10) ∧
    queryInflationWinners boundaryChain 0 1 (2 * 1000000000 + 10) =
      .ok [(3, 2 * 1000000000 + 10)] := by
  refine ⟨rfl, by decide, rfl, by decide, by decide, ?_⟩
  show queryInflationWinners boundaryChain 0 1 2000000010 =
    .ok [(3, 2000000010)]
  rfl

/-- C3 (amended): in the vote tally behind queryInflationWinners, an
account with an inflation destination adds its balance to that
destination's total exactly when its balance reaches the fixed
participation floor of 10^9 (QUERY_VOTE_MINIMUM in the tests) — the
caller's `minBalance` instead thresholds the destinations' totals. -/
theorem inflation_tally_floor (c : Chain) (d : Nat) (a : AccountData)
    (l : List AccountData) :
    votesIn (tallyAccounts (accountsOf (mergedEntries c))) d =
      (((accountsOf (mergedEntries c)).filter
        (contributesTo d)).map (·.balance)).sum ∧
    (a.inflationDest = some d →
      votesIn (tallyAccounts (a :: l)) d =
      votesIn (tallyAccounts l) d +
        (if voteFloor ≤ a.balance then a.balance else 0)) := by
  constructor
  · exact tally_spec _ d
  · intro hdest
    unfold tallyAccounts
    rw [List.foldl_cons, tally_spec_general, tally_spec_general, tally_step]
    have : contributesTo d a = (decide (voteFloor ≤ a.balance)) := by
      simp [contributesTo, hdest]
    rw [this]
    by_cases hfl : voteFloor ≤ a.balance
    · simp [hfl]
      ring
    · simp [hfl]

theorem inflation_tally_floor_witness :
    (votesIn (tallyAccounts (accountsOf (mergedEntries boundaryChain))) 3 =
      (((accountsOf (mergedEntries boundaryChain)).filter
        (contributesTo 3)).map (·.balance)).sum) ∧
    (votesIn (tallyAccounts ((⟨1, 10, some 3⟩ : AccountData) :: [])) 3 =
      votesIn (tallyAccounts []) 3 +
        (if voteFloor ≤ (10 : Int) then (10 : Int) else 0)) :=
  ⟨(inflation_tally_floor boundaryChain 3 ⟨1, 10, some 3⟩ []).1,
   (inflation_tally_floor boundaryChain 3 ⟨1, 10, some 3⟩ []).2 rfl⟩

/-- C2: queryInflationWinners(maxWinners, minBalance) returns exactly the
destinations whose tallied totals reach minBalance, sorted by votes
descending with destination key descending as tie-break, truncated to the
top maxWinners; and the result is identical for any two chains presenting
the same cache-free merged view — whether the contributing changes are
split across parent/child frames at any nesting depth or held at the Root,
and whether the entry cache is enabled (any consistent state) or sized 0. -/
theorem queryInflationWinners_spec (c c' : Chain) (f f' : Frame)
    (rest rest' : List Frame) (maxWinners : Nat) (minBalance : Int)
    (hf : c.frames = f :: rest) (hopen : f.frameSealed = false)
    (hf' : c'.frames = f' :: rest') (hopen' : f'.frameSealed = false)
    (hcons : cacheConsistent c) (hcons' : cacheConsistent c')
    (hview : ∀ k, resolveNC c k = resolveNC c' k) :
    ∃ w, queryInflationWinners c 0 maxWinners minBalance = .ok w ∧
      queryInflationWinners c' 0 maxWinners minBalance = .ok w ∧
      w = (sortWinners ((tallyAccounts (accountsOf (mergedEntries c))).filter
        (fun p => minBalance ≤ p.2))).take maxWinners ∧
      (sortWinners ((tallyAccounts (accountsOf (mergedEntries c))).filter
        (fun p => minBalance ≤ p.2))).Perm
        ((tallyAccounts (accountsOf (mergedEntries c))).filter
          (fun p => minBalance ≤ p.2)) ∧
      (sortWinners ((tallyAccounts (accountsOf (mergedEntries c))).filter
        (fun p => minBalance ≤ p.2))).Pairwise
        (fun x y => winnerLe x y = true) ∧
      w.length ≤ maxWinners := by
  have hoc : opCheck c 0 = .ok f := by
    unfold opCheck
    rw [hf]
    simp [hopen]
  have hoc' : opCheck c' 0 = .ok f' := by
    unfold opCheck
    rw [hf']
    simp [hopen']
  have hq : queryInflationWinners c 0 maxWinners minBalance =
      .ok ((sortWinners ((tallyAccounts (accountsOf
        (mergedEntries c))).filter
        (fun p => minBalance ≤ p.2))).take maxWinners) := by
    unfold queryInflationWinners
    rw [hoc, except_bind_ok]
    rfl
  have hres : ∀ k, resolve c k = resolve c' k := by
    intro k
    rw [resolve_eq_resolveNC hcons, resolve_eq_resolveNC hcons']
    exact hview k
  have hmerged : mergedEntries c' = mergedEntries c :=
    (mergedEntries_ext hres).symm
  have hq' : queryInflationWinners c' 0 maxWinners minBalance =
      .ok ((sortWinners ((tallyAccounts (accountsOf
        (mergedEntries c))).filter
        (fun p => minBalance ≤ p.2))).take maxWinners) := by
    unfold queryInflationWinners
    rw [hoc', except_bind_ok]
    rw [show accountsOf (mergedEntries c') = accountsOf (mergedEntries c) by
      rw [hmerged]]
    rfl
  refine ⟨_, hq, hq', rfl, sortWinners_perm _, sortWinners_sorted _, ?_⟩
  rw [List.length_take]
  omega

theorem queryInflationWinners_witness :
    ∃ w, queryInflationWinners boundaryChain 0 1 (2 * 1000000000 + 10) =
      .ok w ∧
      queryInflationWinners boundarySplit 0 1 (2 * 1000000000 + 10) =
      .ok w ∧
      w = (sortWinners ((tallyAccounts (accountsOf
        (mergedEntries boundaryChain))).filter
        (fun p => 2 * 1000000000 + 10 ≤ p.2))).take 1 ∧
      (sortWinners ((tallyAccounts (accountsOf
        (mergedEntries boundaryChain))).filter
        (fun p => 2 * 1000000000 + 10 ≤ p.2))).Perm
        ((tallyAccounts (accountsOf (mergedEntries boundaryChain))).filter
          (fun p => 2 * 1000000000 + 10 ≤ p.2)) ∧
      (sortWinners ((tallyAccounts (accountsOf
        (mergedEntries boundaryChain))).filter
        (fun p => 2 * 1000000000 + 10 ≤ p.2))).Pairwise
        (fun x y => winnerLe x y = true) ∧
      w.length ≤ 1 := by
  apply queryInflationWinners_spec boundaryChain boundarySplit
    (newFrame hdr0)
    ⟨[(LedgerKey.account 1, some (accEntry 1 1000000003 (some 3)))], false,
      hdr0, [], none, 0⟩ [] [] 1 (2 * 1000000000 + 10) rfl rfl rfl rfl
    ⟨fun hz => rfl, fun k r hk => Option.noConfusion hk⟩
    ⟨fun hz => by exact absurd hz (by decide),
      fun k r hk => Option.noConfusion hk⟩
  intro k
  cases k with
  | offer sl oid => rfl
  | trustLine i a => rfl
  | dataItem i n => rfl
  | account i =>
    by_cases h1 : i = 1
    · subst h1
      rfl
    · by_cases h2 : i = 2
      · subst h2
        rfl
      · have h1' : ¬(1 = i) := fun hh => h1 hh.symm
        have h2' : ¬(2 = i) := fun hh => h2 hh.symm
        show resolveNC boundaryChain (LedgerKey.account i) =
          resolveNC boundarySplit (LedgerKey.account i)
        unfold resolveNC boundaryChain boundarySplit
        simp [resolveFrom, rootResolve, alookup, newFrame, h1', h2']

theorem find_id {l : List (Nat × LedgerKey)} {h : Nat} {k : LedgerKey}
    (hmem : (h, k) ∈ l) (hnd : (l.map Prod.fst).Nodup) :
    l.find? (fun p => p.1 = h) = some (h, k) := by
  induction l with
  | nil => simp at hmem
  | cons a r ih =>
    rw [List.map_cons, List.nodup_cons] at hnd
    rcases List.mem_cons.mp hmem with he | hm
    · rw [← he]
      simp [List.find?_cons]
    · have ha : ¬(a.1 = h) := by
        intro hh
        exact hnd.1 (hh ▸ (List.mem_map.mpr ⟨(h, k), hm, rfl⟩))
      rw [List.find?_cons]
      simp only [ha, decide_False]
      exact ih hm hnd.2

theorem snd_unique {l : List (Nat × LedgerKey)}
    (hnd : (l.map Prod.snd).Nodup) {h : Nat} {k : LedgerKey}
    (hm : (h, k) ∈ l) : ∀ p ∈ l, p.2 = k → p = (h, k) := by
  induction l with
  | nil => simp
  | cons a r ih =>
    rw [List.map_cons, List.nodup_cons] at hnd
    intro p hp hpk
    rcases List.mem_cons.mp hm with hma | hmr
    · rcases List.mem_cons.mp hp with hpa | hpr
      · rw [hpa, ← hma]
      · exfalso
        apply hnd.1
        rw [← hma]
        show (h, k).2 ∈ r.map Prod.snd
        exact hpk ▸ List.mem_map.mpr ⟨p, hpr, rfl⟩
    · rcases List.mem_cons.mp hp with hpa | hpr
      · exfalso
        apply hnd.1
        rw [hpa] at hpk
        exact hpk ▸ List.mem_map.mpr ⟨(h, k), hmr, rfl⟩
      · exact ih hnd.2 hmr p hpr hpk

theorem resolve_set_head (c : Chain) (f f' : Frame) (rest : List Frame)
    (hf : c.frames = f :: rest) (hstage : f'.stage = f.stage)
    (k : LedgerKey) : resolve (setFrame c 0 f') k = resolve c k := by
  unfold resolve
  rw [setFrame_frames, hf]
  show resolveFrom (setFrame c 0 f') (f' :: rest) k =
    resolveFrom c (f :: rest) k
  show (match alookup f'.stage k with
    | some r => r
    | none => resolveFrom (setFrame c 0 f') rest k) =
    (match alookup f.stage k with
    | some r => r
    | none => resolveFrom c rest k)
  rw [hstage]
  cases alookup f.stage k with
  | some r => rfl
  | none =>
    apply resolveFrom_congr_root
    · rfl
    · rfl

theorem load_ok_eval (c : Chain) (f : Frame) (rest : List Frame)
    (hf : c.frames = f :: rest) (hopen : f.frameSealed = false)
    (k : LedgerKey) (e : LedgerEntry) (hact : keyActive c k = false)
    (hres : resolve c k = some e) :
    load c 0 k = .ok (setFrame c 0 ⟨(k, some e) :: f.stage, f.frameSealed,
      f.header, (f.nextId, k) :: f.activeKeys, f.headerActive,
      f.nextId + 1⟩, some f.nextId) := by
  unfold load opCheck
  rw [hf]
  simp only [List.getElem?_cons_zero]
  simp [hopen, hact, hres, except_bind_ok]

/-- C8: move-assigning an active handle B into a distinct active handle A
(entry handles, read-only entry handles — both tracked as outstanding
handles — and header handles) deactivates the key A previously referenced,
so a subsequent load of that key succeeds, while A takes over B's target,
whose key stays outstanding so loading it fails with AlreadyActive;
self-move-assignment is a no-op preserving the handle's target and
active status. -/
theorem moveAssign_handles (c : Chain) (f : Frame) (rest : List Frame)
    (h₁ h₂ : Nat) (k₁ k₂ : LedgerKey) (e₁ e₂ : LedgerEntry)
    (hf : c.frames = f :: rest) (hopen : f.frameSealed = false)
    (hrest : ∀ fr ∈ rest, fr.activeKeys = [])
    (hndi : (f.activeKeys.map Prod.fst).Nodup)
    (hndk : (f.activeKeys.map Prod.snd).Nodup)
    (hm1 : (h₁, k₁) ∈ f.activeKeys) (hm2 : (h₂, k₂) ∈ f.activeKeys)
    (hne : h₁ ≠ h₂) (hkne : k₁ ≠ k₂)
    (hres1 : resolve c k₁ = some e₁) (hres2 : resolve c k₂ = some e₂) :
    handleCurrent c 0 h₁ = some e₁ ∧
    moveAssignEntry c 0 h₁ h₁ = c ∧
    (handleCurrent (moveAssignEntry c 0 h₁ h₂) 0 h₁ = some e₂ ∧
      (∃ c'' hid, load (moveAssignEntry c 0 h₁ h₂) 0 k₁ =
        .ok (c'', some hid)) ∧
      load (moveAssignEntry c 0 h₁ h₂) 0 k₂ = .error .AlreadyActive) ∧
    (∀ hh, f.headerActive = some hh →
      moveAssignHeader c 0 hh hh = c ∧
      (∀ hd, hd ≠ hh →
        loadHeader (moveAssignHeader c 0 hd hh) 0 =
          .error .InvalidState)) := by
  have hfind₁ := find_id hm1 hndi
  have hfind₂ := find_id hm2 hndi
  have hkey_once := snd_unique hndk hm1
  have hmove : moveAssignEntry c 0 h₁ h₂ = setFrame c 0 { f with
      activeKeys := (h₁, k₂) ::
        f.activeKeys.filter (fun p => p.1 ≠ h₁ && p.1 ≠ h₂) } := by
    unfold moveAssignEntry
    rw [if_neg hne, hf]
    simp only [List.getElem?_cons_zero]
    rw [hfind₂]
    rfl
  refine ⟨?_, ?_, ⟨?_, ?_, ?_⟩, ?_⟩
  · unfold handleCurrent
    rw [hf]
    simp only [List.getElem?_cons_zero]
    rw [hfind₁]
    exact hres1
  · unfold moveAssignEntry
    rw [if_pos rfl]
  · unfold handleCurrent
    rw [hmove, setFrame_frames, hf]
    show (match ((⟨f.stage, f.frameSealed, f.header, (h₁, k₂) ::
        f.activeKeys.filter (fun p => p.1 ≠ h₁ && p.1 ≠ h₂),
        f.headerActive, f.nextId⟩ : Frame) :: rest)[0]? with
      | none => none
      | some fr =>
        match fr.activeKeys.find? (fun p => p.1 = h₁) with
        | none => none
        | some (_, k) => resolve (setFrame c 0 ⟨f.stage, f.frameSealed,
            f.header, (h₁, k₂) ::
            f.activeKeys.filter (fun p => p.1 ≠ h₁ && p.1 ≠ h₂),
            f.headerActive, f.nextId⟩) k) = some e₂
    simp only [List.getElem?_cons_zero]
    rw [show ((h₁, k₂) ::
        f.activeKeys.filter (fun p => p.1 ≠ h₁ && p.1 ≠ h₂)).find?
        (fun p => p.1 = h₁) = some (h₁, k₂) by simp [List.find?_cons]]
    show resolve (setFrame c 0 ⟨f.stage, f.frameSealed, f.header,
      (h₁, k₂) :: f.activeKeys.filter (fun p => p.1 ≠ h₁ && p.1 ≠ h₂),
      f.headerActive, f.nextId⟩) k₂ = some e₂
    rw [← hres2]
    apply resolve_set_head c f _ rest hf
    rfl
  · have hka : keyActive (moveAssignEntry c 0 h₁ h₂) k₁ = false := by
      rw [hmove]
      unfold keyActive
      rw [setFrame_frames, hf]
      show (((⟨f.stage, f.frameSealed, f.header, (h₁, k₂) ::
        f.activeKeys.filter (fun p => p.1 ≠ h₁ && p.1 ≠ h₂),
        f.headerActive, f.nextId⟩ : Frame) :: rest).any
        (fun fr => fr.activeKeys.any (fun p => p.2 = k₁))) = false
      rw [List.any_eq_false]
      intro fr hfr
      rcases List.mem_cons.mp hfr with he | hm
      · subst he
        simp only [Bool.not_eq_true, List.any_eq_false, decide_eq_true_eq]
        intro p hp
        rcases List.mem_cons.mp hp with hpe | hpm
        · subst hpe
          exact fun hc => hkne hc.symm
        · have hpk := List.mem_filter.mp hpm
          intro hcontra
          have := hkey_once p hpk.1 hcontra
          rw [this] at hpk
          simp at hpk
      · rw [hrest fr hm]
        simp
    have hres1' : resolve (moveAssignEntry c 0 h₁ h₂) k₁ = some e₁ := by
      rw [hmove, ← hres1]
      apply resolve_set_head c f _ rest hf
      rfl
    have hfr' : (moveAssignEntry c 0 h₁ h₂).frames = ({ f with
        activeKeys := (h₁, k₂) ::
          f.activeKeys.filter (fun p => p.1 ≠ h₁ && p.1 ≠ h₂) } : Frame)
        :: rest := by
      rw [hmove, setFrame_frames, hf]
      rfl
    have hld := load_ok_eval (moveAssignEntry c 0 h₁ h₂) _ rest hfr'
      hopen k₁ e₁ hka hres1'
    exact ⟨_, _, hld⟩
  · have hka : keyActive (moveAssignEntry c 0 h₁ h₂) k₂ = true := by
      rw [hmove]
      unfold keyActive
      rw [setFrame_frames, hf]
      apply List.any_eq_true.mpr
      refine ⟨_, List.mem_cons_self _ _, ?_⟩
      apply List.any_eq_true.mpr
      exact ⟨(h₁, k₂), List.mem_cons_self _ _, by simp⟩
    unfold load
    have hfr2 : (moveAssignEntry c 0 h₁ h₂).frames = ({ f with
        activeKeys := (h₁, k₂) ::
          f.activeKeys.filter (fun p => p.1 ≠ h₁ && p.1 ≠ h₂) } : Frame)
        :: rest := by
      rw [hmove, setFrame_frames, hf]
      rfl
    have hoc : opCheck (moveAssignEntry c 0 h₁ h₂) 0 = .ok { f with
        activeKeys := (h₁, k₂) ::
          f.activeKeys.filter (fun p => p.1 ≠ h₁ && p.1 ≠ h₂) } := by
      unfold opCheck
      rw [hfr2]
      simp only [List.getElem?_cons_zero]
      simp [hopen]
    rw [hoc, except_bind_ok, hka]
    rfl
  · intro hh hha
    constructor
    · unfold moveAssignHeader
      rw [if_pos rfl]
    · intro hd hdne
      have hmh : moveAssignHeader c 0 hd hh =
          setFrame c 0 { f with headerActive := some hd } := by
        unfold moveAssignHeader
        rw [if_neg hdne, hf]
        simp only [List.getElem?_cons_zero]
        rw [hha]
        rw [if_pos rfl]
      rw [hmh]
      have hfrh : (setFrame c 0 ({ f with
          headerActive := some hd } : Frame)).frames =
          ({ f with headerActive := some hd } : Frame) :: rest := by
        rw [setFrame_frames, hf]
        rfl
      unfold loadHeader opCheck
      rw [hfrh]
      simp only [List.getElem?_cons_zero]
      simp [hopen, except_bind_ok]
      rfl


theorem moveAssign_handles_witness :
    handleCurrent moveChain 0 0 = some (accEntry 1 5 none) ∧
    moveAssignEntry moveChain 0 0 0 = moveChain ∧
    (handleCurrent (moveAssignEntry moveChain 0 0 1) 0 0 =
        some (accEntry 2 6 none) ∧
      (∃ c'' hid, load (moveAssignEntry moveChain 0 0 1) 0
        (LedgerKey.account 1) = .ok (c'', some hid)) ∧
      load (moveAssignEntry moveChain 0 0 1) 0 (LedgerKey.account 2) =
        .error .AlreadyActive) ∧
    (∀ hh, moveFrame.headerActive = some hh →
      moveAssignHeader moveChain 0 hh hh = moveChain ∧
      (∀ hd, hd ≠ hh →
        loadHeader (moveAssignHeader moveChain 0 hd hh) 0 =
          .error .InvalidState)) :=
  moveAssign_handles moveChain moveFrame [] 0 1
    (LedgerKey.account 1) (LedgerKey.account 2)
    (accEntry 1 5 none) (accEntry 2 6 none) rfl rfl
    (by simp) (by decide) (by decide) (by decide) (by decide)
    (by decide) (by decide) rfl rfl

end StellarLedger
